import Mathlib

/-! # Verification of the panda gallery engagement core

Shallow embedding of the two source files of the repository:

* `tools/fix-images.js` — the offline catalog maintenance tool: the
  reachability prober (`checkUrl`), the balanced-`<div>` catalog extractor
  (`extractImageContainers`), the two de-duplication passes over the
  extracted blocks, and the pruning of `views.json`.
* `ronans-panda-gallery-backup-v2/resetCounters.js` — a concatenation of
  three scripts: the counter-reset script, the Express server holding the
  engagement ledger (`/data/:id`, `/view`, `/heart` handlers), and the
  ledger/catalog reconciler script.

JavaScript objects are modelled as association lists (`List (String × _)`),
preserving key-insertion order; JavaScript `Set`s are modelled as
insertion-ordered duplicate-free lists.  Network requests are modelled as
oracles passed in as function arguments.
-/

set_option autoImplicit false

namespace Panda

/-! ## Association-list helpers (JavaScript object access) -/

/-- `obj[k]` on a JavaScript object modelled as an association list:
the first binding of key `k`, if any. -/
def alookup {α : Type} : List (String × α) → String → Option α
  | [], _ => none
  | p :: rest, k => if p.1 = k then some p.2 else alookup rest k

/-- `obj[k] = v` on a JavaScript object: replaces the value in place when the
key is present (key order preserved), otherwise appends the new key at the
end (JavaScript property-insertion order). -/
def aset {α : Type} (l : List (String × α)) (k : String) (v : α) :
    List (String × α) :=
  if (alookup l k).isSome then
    l.map (fun p => if p.1 = k then (k, v) else p)
  else
    l ++ [(k, v)]

/-- `Set.add` on a JavaScript `Set` modelled as an insertion-ordered list:
appends the element when absent. -/
def jsSetAdd (l : List String) (x : String) : List String :=
  if l.contains x then l else l ++ [x]

/-- `new Set(array)` / spreading an array through a `Set`: keeps the first
occurrence of each element, in order. -/
def jsSetOfList : List String → List String
  | [] => []
  | x :: xs => x :: jsSetOfList (xs.filter (fun y => y ≠ x))
termination_by l => l.length
decreasing_by
  simp only [List.length_cons]
  exact Nat.lt_succ_of_le (List.length_filter_le _ _)

/-- Truthiness of an optional string (a missing header or an empty string is
falsy in JavaScript). -/
def optTruthy : Option String → Bool
  | none => false
  | some s => s ≠ ""

/-- `x || ''` on an optional string. -/
def optStr : Option String → String
  | none => ""
  | some s => s

/-! ## The engagement ledger server (`resetCounters.js`, Express server part)

One entry of `views.json` / the in-memory `data` object.  `usersHearted` is
the runtime `Set`, modelled as an insertion-ordered duplicate-free list. -/

structure Entry where
  views : Nat
  hearts : Nat
  usersHearted : List String
deriving DecidableEq, Repr

/-- The zero-initialized entry `{ views: 0, hearts: 0, usersHearted: new Set() }`. -/
def zeroEntry : Entry := ⟨0, 0, []⟩

/-- One entry of `users.json`. -/
structure UserRec where
  email : String
  password : String
  viewed : List String
  hearted : List String
deriving DecidableEq, Repr

/-- The server's mutable state: the `data` object (ledger) and the `users`
object. -/
structure ServerState where
  data : List (String × Entry)
  users : List (String × UserRec)
deriving DecidableEq, Repr

/-- `if (!data[id]) data[id] = { views: 0, hearts: 0, usersHearted: new Set() }`:
the lazy zero-initialization performed by every handler. -/
def ensureEntry (d : List (String × Entry)) (id : String) :
    List (String × Entry) :=
  if (alookup d id).isSome then d else d ++ [(id, zeroEntry)]

/-- The response of `GET /data/:id`. -/
structure QueryOut where
  views : Nat
  hearts : Nat
  userHasHearted : Bool
  userHasViewed : Bool
deriving DecidableEq, Repr

/-- `app.get('/data/:id')`: lazily creates a zero entry for a missing id,
then reports counts and the caller's membership flags.  An unregistered
user id yields a JavaScript `undefined` for `userHasViewed`, which is falsy;
it is modelled as `false`. -/
def queryOp (s : ServerState) (id : String) (userId : Option String) :
    ServerState × QueryOut :=
  let data' := ensureEntry s.data id
  let e := (alookup data' id).getD zeroEntry
  ({ s with data := data' },
   { views := e.views
     hearts := e.hearts
     userHasHearted :=
       match userId with
       | none => false
       | some uid => if uid = "" then false else e.usersHearted.contains uid
     userHasViewed :=
       match userId with
       | none => false
       | some uid =>
         if uid = "" then false
         else match alookup s.users uid with
           | none => false
           | some u => u.viewed.contains id })

/-- The registered user addressed by the `X-User-Id` header, if the header is
truthy and names a registered user (`userId && users[userId]`). -/
def headerUser (s : ServerState) (userId : Option String) :
    Option (String × UserRec) :=
  match userId with
  | none => none
  | some uid =>
    if uid = "" then none
    else match alookup s.users uid with
      | none => none
      | some u => some (uid, u)

/-- `app.post('/view')`: a missing (falsy) id is a 400 error and mutates
nothing.  A signed-in user is counted only on first view of the id; an
anonymous or unregistered caller always increments. -/
def viewOp (s : ServerState) (id : String) (userId : Option String) :
    ServerState :=
  if id = "" then s
  else
    let data1 := ensureEntry s.data id
    let e := (alookup data1 id).getD zeroEntry
    match headerUser s userId with
    | some (uid, u) =>
      if u.viewed.contains id then { s with data := data1 }
      else
        { data := aset data1 id { e with views := e.views + 1 }
          users := aset s.users uid { u with viewed := u.viewed ++ [id] } }
    | none =>
      { s with data := aset data1 id { e with views := e.views + 1 } }

/-- `app.post('/heart')`: requires a truthy id (else 400) and a registered
user (else 401), both without mutation.  Toggles the user's membership in
the entry's `usersHearted` set, recomputes `hearts` as the set's size, and
mirrors the id into/out of the user's `hearted` list. -/
def toggleHeart (s : ServerState) (id : String) (userId : String) :
    ServerState :=
  if id = "" then s
  else if userId = "" then s
  else match alookup s.users userId with
    | none => s
    | some u =>
      let data1 := ensureEntry s.data id
      let e := (alookup data1 id).getD zeroEntry
      if e.usersHearted.contains userId then
        let hb := e.usersHearted.filter (fun x => x ≠ userId)
        { data := aset data1 id { e with usersHearted := hb, hearts := hb.length }
          users := aset s.users userId
            { u with hearted := u.hearted.filter (fun x => x ≠ id) } }
      else
        let hb := jsSetAdd e.usersHearted userId
        { data := aset data1 id { e with usersHearted := hb, hearts := hb.length }
          users := aset s.users userId
            { u with hearted := jsSetOfList (u.hearted ++ [id]) } }

/-- A sequence of `POST /heart` requests, applied in order. -/
def runToggles (s : ServerState) (ops : List (String × String)) : ServerState :=
  ops.foldl (fun t q => toggleHeart t q.1 q.2) s

/-- The views count the server stores for `id` (missing entries read as 0). -/
def viewsOf (s : ServerState) (id : String) : Nat :=
  ((alookup s.data id).getD zeroEntry).views

/-! ## Lemmas about the JavaScript-object helpers -/

theorem alookup_append_single {α : Type} (l : List (String × α)) (k k' : String)
    (v : α) :
    alookup (l ++ [(k, v)]) k' =
      match alookup l k' with
      | some x => some x
      | none => if k = k' then some v else none := by
  induction l with
  | nil => simp [alookup]
  | cons p rest ih =>
    by_cases h : p.1 = k' <;> simp [alookup, h, ih]

theorem alookup_mem {α : Type} {l : List (String × α)} {k : String} {v : α}
    (h : alookup l k = some v) : (k, v) ∈ l := by
  induction l with
  | nil => simp [alookup] at h
  | cons p rest ih =>
    cases p with
    | mk a b =>
      by_cases hp : a = k
      · subst hp
        simp only [alookup, if_pos] at h
        cases h
        exact List.mem_cons_self _ _
      · simp only [alookup, hp, if_neg, not_false_iff] at h
        exact List.mem_cons_of_mem _ (ih h)

theorem alookup_map_replace_self {α : Type} {l : List (String × α)} {k : String}
    (v : α) (h : (alookup l k).isSome) :
    alookup (l.map (fun p => if p.1 = k then (k, v) else p)) k = some v := by
  induction l with
  | nil => simp [alookup] at h
  | cons p rest ih =>
    by_cases hp : p.1 = k
    · simp [alookup, hp]
    · simp only [alookup, hp, if_neg, not_false_iff] at h
      simp only [List.map_cons, if_neg hp, alookup, hp, if_neg, not_false_iff]
      exact ih h

theorem alookup_map_replace_ne {α : Type} (l : List (String × α))
    (k k' : String) (v : α) (h : k' ≠ k) :
    alookup (l.map (fun p => if p.1 = k then (k, v) else p)) k' =
      alookup l k' := by
  induction l with
  | nil => simp [alookup]
  | cons p rest ih =>
    by_cases hp : p.1 = k
    · simp only [List.map_cons, if_pos hp, alookup]
      rw [if_neg (Ne.symm h), if_neg (fun hk => h (hp ▸ hk).symm), ih]
    · simp only [List.map_cons, if_neg hp, alookup]
      by_cases hp' : p.1 = k' <;> simp [hp', ih]

theorem alookup_aset_self {α : Type} (l : List (String × α)) (k : String)
    (v : α) : alookup (aset l k v) k = some v := by
  unfold aset
  split
  · exact alookup_map_replace_self v (by assumption)
  · rw [alookup_append_single]
    rename_i hnone
    simp only [Option.not_isSome_iff_eq_none] at hnone
    simp [hnone]

theorem alookup_aset_ne {α : Type} (l : List (String × α)) (k k' : String)
    (v : α) (h : k' ≠ k) : alookup (aset l k v) k' = alookup l k' := by
  unfold aset
  split
  · exact alookup_map_replace_ne l k k' v h
  · rw [alookup_append_single]
    cases hl : alookup l k' with
    | some x => rfl
    | none => rw [if_neg (Ne.symm h)]

theorem mem_aset {α : Type} {l : List (String × α)} {k : String} {v : α}
    {p : String × α} (h : p ∈ aset l k v) : p = (k, v) ∨ p ∈ l := by
  unfold aset at h
  split at h
  · rcases List.mem_map.mp h with ⟨q, hq, hfq⟩
    by_cases hqk : q.1 = k
    · left
      rw [← hfq, if_pos hqk]
    · right
      rw [← hfq, if_neg hqk]
      exact hq
  · rcases List.mem_append.mp h with h' | h'
    · right; exact h'
    · left; simpa using h'

theorem alookup_ensure_self (d : List (String × Entry)) (id : String) :
    alookup (ensureEntry d id) id = some ((alookup d id).getD zeroEntry) := by
  unfold ensureEntry
  split
  · rename_i hsome
    cases hd : alookup d id with
    | some e => simp [hd]
    | none => rw [hd] at hsome; simp at hsome
  · rename_i hnone
    simp only [Option.not_isSome_iff_eq_none] at hnone
    rw [alookup_append_single, hnone]
    simp

theorem alookup_ensure_ne (d : List (String × Entry)) (id id' : String)
    (h : id' ≠ id) : alookup (ensureEntry d id) id' = alookup d id' := by
  unfold ensureEntry
  split
  · rfl
  · rw [alookup_append_single]
    cases hd : alookup d id' with
    | some x => rfl
    | none => rw [if_neg (Ne.symm h)]

theorem mem_ensureEntry {d : List (String × Entry)} {id : String}
    {p : String × Entry} (h : p ∈ ensureEntry d id) :
    p = (id, zeroEntry) ∨ p ∈ d := by
  unfold ensureEntry at h
  split at h
  · right; exact h
  · rcases List.mem_append.mp h with h' | h'
    · right; exact h'
    · left; simpa using h'

theorem mem_jsSetAdd {l : List String} {x y : String} :
    y ∈ jsSetAdd l x ↔ y ∈ l ∨ y = x := by
  unfold jsSetAdd
  split
  · rename_i hmem
    constructor
    · exact .inl
    · rintro (h | rfl)
      · exact h
      · simpa using hmem
  · simp

theorem jsSetAdd_nodup {l : List String} (h : l.Nodup) (x : String) :
    (jsSetAdd l x).Nodup := by
  unfold jsSetAdd
  split
  · exact h
  · rename_i hmem
    have hx : x ∉ l := by simpa using hmem
    refine List.Nodup.append h (List.nodup_singleton x) ?_
    intro a ha hb
    simp only [List.mem_singleton] at hb
    subst hb
    exact hx ha

theorem mem_jsSetOfList {l : List String} {y : String} :
    y ∈ jsSetOfList l ↔ y ∈ l := by
  induction l using jsSetOfList.induct with
  | case1 => simp [jsSetOfList]
  | case2 x xs ih =>
    rw [jsSetOfList]
    by_cases hyx : y = x
    · simp [hyx]
    · simp only [List.mem_cons, hyx, false_or]
      rw [ih]
      simp [List.mem_filter, hyx]

theorem jsSetOfList_nodup (l : List String) : (jsSetOfList l).Nodup := by
  induction l using jsSetOfList.induct with
  | case1 => simp [jsSetOfList]
  | case2 x xs ih =>
    rw [jsSetOfList]
    refine List.nodup_cons.mpr ⟨?_, ?_⟩
    · rw [mem_jsSetOfList]
      simp [List.mem_filter]
    · exact ih

/-! ## C3: the heart count always equals the cardinality of `heartedBy` -/

/-- Well-formedness of the ledger: every entry's `usersHearted` is a genuine
set (duplicate-free, as a JavaScript `Set` guarantees), and its stored
`hearts` count equals the set's cardinality. -/
def ledgerWf (s : ServerState) : Prop :=
  ∀ p ∈ s.data, p.2.usersHearted.Nodup ∧ p.2.hearts = p.2.usersHearted.length

instance (s : ServerState) : Decidable (ledgerWf s) := by
  unfold ledgerWf
  exact List.decidableBAll _ _

theorem ledgerWf_entry {s : ServerState} (h : ledgerWf s) (id : String) :
    ((alookup s.data id).getD zeroEntry).usersHearted.Nodup ∧
      ((alookup s.data id).getD zeroEntry).hearts =
        ((alookup s.data id).getD zeroEntry).usersHearted.length := by
  cases hd : alookup s.data id with
  | some e => simpa using h (id, e) (alookup_mem hd)
  | none => simp [zeroEntry]

theorem toggleHeart_ledgerWf {s : ServerState} (h : ledgerWf s)
    (id userId : String) : ledgerWf (toggleHeart s id userId) := by
  unfold toggleHeart
  split
  · exact h
  split
  · exact h
  split
  · exact h
  rename_i u _
  have hwfdata1 : ∀ p ∈ ensureEntry s.data id,
      p.2.usersHearted.Nodup ∧ p.2.hearts = p.2.usersHearted.length := by
    intro p hp
    rcases mem_ensureEntry hp with rfl | hp'
    · exact ⟨List.nodup_nil, rfl⟩
    · exact h p hp'
  have he : ((alookup (ensureEntry s.data id) id).getD zeroEntry).usersHearted.Nodup := by
    rw [alookup_ensure_self]
    exact (ledgerWf_entry h id).1
  dsimp only
  split
  all_goals
    intro p hp
    rcases mem_aset hp with rfl | hp'
    · constructor
      · first
        | exact List.Nodup.filter _ he
        | exact jsSetAdd_nodup he _
      · rfl
    · exact hwfdata1 p hp'

/-- C3: for every item id, after any sequence of `toggleHeart` operations
from a well-formed state, the stored heart count of every ledger entry
equals the cardinality of that entry's `heartedBy` set. -/
theorem heartCount_eq_card_after_toggles (s : ServerState)
    (ops : List (String × String)) (h : ledgerWf s) :
    ledgerWf (runToggles s ops) := by
  induction ops generalizing s with
  | nil => exact h
  | cons op rest ih =>
    exact ih _ (toggleHeart_ledgerWf h op.1 op.2)

/-- Witness for C3 at a concrete state and toggle sequence. -/
theorem heartCount_eq_card_after_toggles_witness :
    ledgerWf ⟨[("panda1", ⟨3, 1, ["alice"]⟩)],
              [("alice", ⟨"a", "pw", [], ["panda1"]⟩),
               ("bob", ⟨"b", "pw", [], []⟩)]⟩ ∧
    ledgerWf (runToggles
      ⟨[("panda1", ⟨3, 1, ["alice"]⟩)],
       [("alice", ⟨"a", "pw", [], ["panda1"]⟩),
        ("bob", ⟨"b", "pw", [], []⟩)]⟩
      [("panda1", "bob"), ("panda1", "alice"), ("panda2", "bob")]) :=
  ⟨by decide, heartCount_eq_card_after_toggles _ _ (by decide)⟩

/-! ## C4: `hearted` mirrors `usersHearted` membership -/

/-- The mirroring invariant of the spec: an id is in a registered user's
`hearted` list exactly when that user's identifier is in the ledger entry's
`usersHearted` set (a missing entry has no members). -/
def heartMirror (s : ServerState) : Prop :=
  ∀ uid u, alookup s.users uid = some u →
    ∀ id, id ∈ u.hearted ↔
      ∃ e, alookup s.data id = some e ∧ uid ∈ e.usersHearted

/-- A decidable strengthening of `heartMirror`, quantifying over the stored
bindings instead of all strings. -/
def heartMirrorD (s : ServerState) : Prop :=
  (∀ p ∈ s.users, ∀ id ∈ p.2.hearted,
      ((alookup s.data id).getD zeroEntry).usersHearted.contains p.1) ∧
  (∀ q ∈ s.data, ∀ p ∈ s.users, p.1 ∈ q.2.usersHearted → q.1 ∈ p.2.hearted)

instance (s : ServerState) : Decidable (heartMirrorD s) := by
  unfold heartMirrorD
  infer_instance

theorem heartMirrorD_heartMirror {s : ServerState} (h : heartMirrorD s) :
    heartMirror s := by
  intro uid u hu id
  constructor
  · intro hin
    have := h.1 (uid, u) (alookup_mem hu) id hin
    cases hd : alookup s.data id with
    | some e =>
      refine ⟨e, rfl, ?_⟩
      rw [hd] at this
      simpa using this
    | none =>
      rw [hd] at this
      simp [zeroEntry] at this
  · rintro ⟨e, he, hw⟩
    exact h.2 (id, e) (alookup_mem he) (uid, u) (alookup_mem hu) hw

theorem exists_entry_iff (E : Entry) (uid : String) :
    (∃ e, some E = some e ∧ uid ∈ e.usersHearted) ↔ uid ∈ E.usersHearted := by
  simp

theorem heartMirror_toggle {s : ServerState} (hm : heartMirror s)
    (id0 uid0 : String) : heartMirror (toggleHeart s id0 uid0) := by
  unfold toggleHeart
  split
  · exact hm
  split
  · exact hm
  split
  · exact hm
  rename_i u0 hu0
  have hmem0 : ∀ w,
      w ∈ ((alookup (ensureEntry s.data id0) id0).getD zeroEntry).usersHearted
        ↔ ∃ e0, alookup s.data id0 = some e0 ∧ w ∈ e0.usersHearted := by
    intro w
    rw [alookup_ensure_self]
    cases hd : alookup s.data id0 with
    | some e0 => simp
    | none => simp [zeroEntry]
  dsimp only
  split
  · -- delete branch: uid0 was in the entry's set
    rename_i hcont
    intro uid u hu id
    by_cases huid : uid = uid0
    · subst huid
      rw [alookup_aset_self] at hu
      cases hu
      by_cases hid : id = id0
      · subst hid
        rw [alookup_aset_self, exists_entry_iff]
        simp [List.mem_filter]
      · rw [alookup_aset_ne _ _ _ _ hid, alookup_ensure_ne _ _ _ hid]
        rw [List.mem_filter]
        simp only [decide_eq_true_eq, ne_eq, hid, not_false_eq_true, and_true]
        exact hm _ u0 hu0 id
    · rw [alookup_aset_ne _ _ _ _ huid] at hu
      by_cases hid : id = id0
      · subst hid
        rw [alookup_aset_self, exists_entry_iff]
        rw [List.mem_filter]
        simp only [decide_eq_true_eq, ne_eq, huid, not_false_eq_true, and_true]
        rw [hmem0 uid]
        exact hm uid u hu _
      · rw [alookup_aset_ne _ _ _ _ hid, alookup_ensure_ne _ _ _ hid]
        exact hm uid u hu id
  · -- add branch: uid0 was not in the entry's set
    rename_i hcont
    intro uid u hu id
    by_cases huid : uid = uid0
    · subst huid
      rw [alookup_aset_self] at hu
      cases hu
      by_cases hid : id = id0
      · subst hid
        rw [alookup_aset_self, exists_entry_iff]
        rw [mem_jsSetOfList, mem_jsSetAdd]
        simp
      · rw [alookup_aset_ne _ _ _ _ hid, alookup_ensure_ne _ _ _ hid]
        rw [mem_jsSetOfList]
        rw [List.mem_append, List.mem_singleton]
        simp only [hid, or_false]
        exact hm _ u0 hu0 id
    · rw [alookup_aset_ne _ _ _ _ huid] at hu
      by_cases hid : id = id0
      · subst hid
        rw [alookup_aset_self, exists_entry_iff]
        rw [mem_jsSetAdd]
        simp only [huid, or_false]
        rw [hmem0 uid]
        exact hm uid u hu _
      · rw [alookup_aset_ne _ _ _ _ hid, alookup_ensure_ne _ _ _ hid]
        exact hm uid u hu id

/-- C4: for every registered user and every item id, after any sequence of
`toggleHeart` operations from a state satisfying the mirroring invariant,
an id is in the user's `hearted` list iff the user's identifier is in the
entry's `usersHearted` set. -/
theorem hearted_mirror_after_toggles (s : ServerState)
    (ops : List (String × String)) (h : heartMirrorD s) :
    ∀ uid u, alookup (runToggles s ops).users uid = some u →
      ∀ id, id ∈ u.hearted ↔
        ∃ e, alookup (runToggles s ops).data id = some e ∧
          uid ∈ e.usersHearted := by
  have : ∀ t, heartMirror t → heartMirror (runToggles t ops) := by
    intro t ht
    induction ops generalizing t with
    | nil => exact ht
    | cons op rest ih => exact ih _ (heartMirror_toggle ht op.1 op.2)
  exact this s (heartMirrorD_heartMirror h)

/-- Witness for C4 at a concrete state and toggle sequence. -/
theorem hearted_mirror_after_toggles_witness :
    heartMirrorD ⟨[("panda1", ⟨3, 1, ["alice"]⟩)],
                  [("alice", ⟨"a", "pw", [], ["panda1"]⟩),
                   ("bob", ⟨"b", "pw", [], []⟩)]⟩ ∧
    (∀ uid u,
      alookup (runToggles
        ⟨[("panda1", ⟨3, 1, ["alice"]⟩)],
         [("alice", ⟨"a", "pw", [], ["panda1"]⟩),
          ("bob", ⟨"b", "pw", [], []⟩)]⟩
        [("panda1", "bob"), ("panda1", "alice"), ("panda2", "bob")]).users uid
          = some u →
      ∀ id, id ∈ u.hearted ↔
        ∃ e, alookup (runToggles
          ⟨[("panda1", ⟨3, 1, ["alice"]⟩)],
           [("alice", ⟨"a", "pw", [], ["panda1"]⟩),
            ("bob", ⟨"b", "pw", [], []⟩)]⟩
          [("panda1", "bob"), ("panda1", "alice"), ("panda2", "bob")]).data id
            = some e ∧ uid ∈ e.usersHearted) :=
  ⟨by decide, hearted_mirror_after_toggles _ _ (by decide)⟩

/-! ## C5: the query operation and its frame conditions -/

/-- C5 counterexample: `GET /data/:id` is not mutation-free — querying an id
with no ledger entry creates (and keeps) a zero-initialized entry, so the
ledger store after the query differs from the store before it. -/
theorem query_mutates_on_missing_id :
    (queryOp ⟨[], []⟩ "panda9" none).1 ≠ (⟨[], []⟩ : ServerState) := by
  decide

/-- C5 amended: `query` returns `{viewCount, heartCount, hasViewed,
hasHearted}` with the last two `false` when no user is supplied, never
modifies the user store, and leaves every existing entry untouched; its only
mutation is the lazy creation of a zero-initialized entry when the queried
id has none (so every id still reads back the same counts as before). -/
theorem query_frame_conditions (s : ServerState) (id : String)
    (userId : Option String) :
    (queryOp s id userId).1.users = s.users ∧
    (queryOp s id userId).1.data =
      (if (alookup s.data id).isSome then s.data
       else s.data ++ [(id, zeroEntry)]) ∧
    (∀ id', alookup (queryOp s id userId).1.data id' =
      (if id' = id then some ((alookup s.data id').getD zeroEntry)
       else alookup s.data id')) ∧
    (queryOp s id none).2.userHasHearted = false ∧
    (queryOp s id none).2.userHasViewed = false ∧
    (queryOp s id userId).2.views = ((alookup s.data id).getD zeroEntry).views ∧
    (queryOp s id userId).2.hearts =
      ((alookup s.data id).getD zeroEntry).hearts := by
  refine ⟨rfl, rfl, ?_, rfl, rfl, ?_, ?_⟩
  · intro id'
    by_cases h : id' = id
    · subst h
      rw [if_pos rfl]
      exact alookup_ensure_self _ _
    · rw [if_neg h]
      exact alookup_ensure_ne _ _ _ h
  · show ((alookup (ensureEntry s.data id) id).getD zeroEntry).views = _
    rw [alookup_ensure_self]
    rfl
  · show ((alookup (ensureEntry s.data id) id).getD zeroEntry).hearts = _
    rw [alookup_ensure_self]
    rfl

/-! ## C6: a registered user's repeated view counts once -/

/-- C6 counterexample: when the registered user has already viewed the id,
two further `recordUserView` calls leave `viewCount` unchanged, so the pair
of calls does not increment it by exactly 1. -/
theorem view_twice_no_increment_when_already_viewed :
    ¬ (viewsOf
        (viewOp
          (viewOp ⟨[("panda1", ⟨5, 0, []⟩)],
                   [("carol", ⟨"c", "pw", ["panda1"], []⟩)]⟩
            "panda1" (some "carol"))
          "panda1" (some "carol"))
        "panda1"
       = viewsOf ⟨[("panda1", ⟨5, 0, []⟩)],
                  [("carol", ⟨"c", "pw", ["panda1"], []⟩)]⟩ "panda1" + 1) := by
  decide

/-- A `POST /view` for an id the signed-in user has already viewed mutates
nothing (given the entry already exists). -/
theorem viewOp_noop (t : ServerState) (id uid : String) (u : UserRec)
    (hid : id ≠ "") (huid : uid ≠ "") (hu : alookup t.users uid = some u)
    (hv : u.viewed.contains id = true) (hd : (alookup t.data id).isSome) :
    viewOp t id (some uid) = t := by
  unfold viewOp
  rw [if_neg hid]
  have hheader : headerUser t (some uid) = some (uid, u) := by
    simp [headerUser, huid, hu]
  rw [hheader]
  dsimp only
  rw [hv]
  have hens : ensureEntry t.data id = t.data := by
    unfold ensureEntry
    rw [if_pos hd]
  simp [hens]

/-- C6 amended: for every registered user (non-empty identifier) and
non-empty item id that the user has not already viewed, calling
`recordUserView(id, u)` twice in sequence increments the item's view count
by exactly 1 in total, leaves id appearing exactly once in the user's
`viewedItems`, and makes the second call a no-op. -/
theorem view_twice_increments_once (s : ServerState) (id uid : String)
    (u : UserRec) (hid : id ≠ "") (huid : uid ≠ "")
    (hu : alookup s.users uid = some u) (hnv : id ∉ u.viewed) :
    viewsOf (viewOp s id (some uid)) id = viewsOf s id + 1 ∧
    viewOp (viewOp s id (some uid)) id (some uid) = viewOp s id (some uid) ∧
    (∃ u', alookup (viewOp s id (some uid)).users uid = some u' ∧
      u'.viewed.count id = 1) := by
  have hheader : headerUser s (some uid) = some (uid, u) := by
    simp [headerUser, huid, hu]
  have hcont : u.viewed.contains id = false := by
    simpa using hnv
  have hs1 : viewOp s id (some uid) =
      { data := aset (ensureEntry s.data id) id
          { (alookup (ensureEntry s.data id) id).getD zeroEntry with
            views :=
              ((alookup (ensureEntry s.data id) id).getD zeroEntry).views + 1 }
        users := aset s.users uid { u with viewed := u.viewed ++ [id] } } := by
    unfold viewOp
    rw [if_neg hid, hheader]
    dsimp only
    rw [hcont]
    simp
  have hlook1 : alookup (viewOp s id (some uid)).data id =
      some { (alookup (ensureEntry s.data id) id).getD zeroEntry with
             views :=
               ((alookup (ensureEntry s.data id) id).getD zeroEntry).views + 1 } := by
    rw [hs1]
    exact alookup_aset_self _ _ _
  have huser1 : alookup (viewOp s id (some uid)).users uid =
      some { u with viewed := u.viewed ++ [id] } := by
    rw [hs1]
    exact alookup_aset_self _ _ _
  refine ⟨?_, ?_, ?_⟩
  · unfold viewsOf
    rw [hlook1, alookup_ensure_self]
    rfl
  · refine viewOp_noop _ id uid { u with viewed := u.viewed ++ [id] }
      hid huid huser1 (by simp) ?_
    rw [hlook1]
    rfl
  · refine ⟨{ u with viewed := u.viewed ++ [id] }, huser1, ?_⟩
    simp [List.count_append, List.count_eq_zero.mpr hnv]

/-- Witness for the amended C6 at a concrete state. -/
theorem view_twice_increments_once_witness :
    ("panda1" : String) ≠ "" ∧ ("carol" : String) ≠ "" ∧
    alookup ([("carol", (⟨"c", "pw", [], []⟩ : UserRec))]) "carol"
      = some (⟨"c", "pw", [], []⟩ : UserRec) ∧
    "panda1" ∉ (⟨"c", "pw", [], []⟩ : UserRec).viewed ∧
    (viewsOf (viewOp ⟨[("panda1", ⟨5, 0, []⟩)],
        [("carol", ⟨"c", "pw", [], []⟩)]⟩ "panda1" (some "carol")) "panda1"
      = viewsOf (⟨[("panda1", ⟨5, 0, []⟩)],
        [("carol", ⟨"c", "pw", [], []⟩)]⟩ : ServerState) "panda1" + 1 ∧
     viewOp (viewOp ⟨[("panda1", ⟨5, 0, []⟩)],
        [("carol", ⟨"c", "pw", [], []⟩)]⟩ "panda1" (some "carol"))
        "panda1" (some "carol")
      = viewOp ⟨[("panda1", ⟨5, 0, []⟩)],
        [("carol", ⟨"c", "pw", [], []⟩)]⟩ "panda1" (some "carol") ∧
     (∃ u', alookup (viewOp ⟨[("panda1", ⟨5, 0, []⟩)],
        [("carol", ⟨"c", "pw", [], []⟩)]⟩ "panda1" (some "carol")).users "carol"
          = some u' ∧ u'.viewed.count "panda1" = 1)) :=
  ⟨by decide, by decide, by decide, by decide,
   view_twice_increments_once
     ⟨[("panda1", ⟨5, 0, []⟩)], [("carol", ⟨"c", "pw", [], []⟩)]⟩
     "panda1" "carol" ⟨"c", "pw", [], []⟩
     (by decide) (by decide) (by decide) (by decide)⟩

/-! ## C10: an unregistered user id degrades to an anonymous view -/

/-- C10: a view request whose user identifier names no registered user
behaves exactly like an anonymous view: the same resulting state, the user
store untouched, and the view count incremented on every call. -/
theorem unregistered_view_is_anonymous (s : ServerState) (id uid : String)
    (h : alookup s.users uid = none) (hid : id ≠ "") :
    viewOp s id (some uid) = viewOp s id none ∧
    (viewOp s id (some uid)).users = s.users ∧
    viewsOf (viewOp s id (some uid)) id = viewsOf s id + 1 := by
  have hheader : headerUser s (some uid) = none := by
    by_cases he : uid = "" <;> simp [headerUser, he, h]
  have hheadern : headerUser s none = none := rfl
  have heq : viewOp s id (some uid) = viewOp s id none := by
    unfold viewOp
    rw [hheader, hheadern]
  refine ⟨heq, ?_, ?_⟩
  · unfold viewOp
    rw [if_neg hid, hheader]
  · unfold viewOp viewsOf
    rw [if_neg hid, hheader]
    dsimp only
    rw [alookup_aset_self, alookup_ensure_self]
    rfl

/-- Witness for C10 at a concrete state. -/
theorem unregistered_view_is_anonymous_witness :
    alookup ([("carol", (⟨"c", "pw", [], []⟩ : UserRec))]) "mallory" = none ∧
    ("panda1" : String) ≠ "" ∧
    (viewOp ⟨[("panda1", ⟨5, 0, []⟩)], [("carol", ⟨"c", "pw", [], []⟩)]⟩
        "panda1" (some "mallory")
      = viewOp ⟨[("panda1", ⟨5, 0, []⟩)], [("carol", ⟨"c", "pw", [], []⟩)]⟩
        "panda1" none ∧
     (viewOp ⟨[("panda1", ⟨5, 0, []⟩)], [("carol", ⟨"c", "pw", [], []⟩)]⟩
        "panda1" (some "mallory")).users
      = [("carol", ⟨"c", "pw", [], []⟩)] ∧
     viewsOf (viewOp ⟨[("panda1", ⟨5, 0, []⟩)],
        [("carol", ⟨"c", "pw", [], []⟩)]⟩ "panda1" (some "mallory")) "panda1"
      = viewsOf (⟨[("panda1", ⟨5, 0, []⟩)],
        [("carol", ⟨"c", "pw", [], []⟩)]⟩ : ServerState) "panda1" + 1) :=
  ⟨by decide, by decide,
   unregistered_view_is_anonymous _ _ _ (by decide) (by decide)⟩

/-! ## Character-level string primitives

The JavaScript string operations used by `fix-images.js` (`toLowerCase`,
`startsWith`, the `replace` regexes) are modelled over `String.data` with
structural recursion.  Case folding is ASCII (the inputs are URLs, paths and
MIME types). -/

/-- ASCII lower-casing of one character. -/
def lowerChar (c : Char) : Char :=
  if 65 ≤ c.toNat ∧ c.toNat ≤ 90 then Char.ofNat (c.toNat + 32) else c

/-- `s.toLowerCase()` (ASCII). -/
def lowerStr (s : String) : String :=
  (s.data.map lowerChar).asString

/-- `s.startsWith(p)`. -/
def strStartsWith (s p : String) : Bool :=
  p.data.isPrefixOf s.data

/-! ## C7: the reachability prober (`checkUrl` of `fix-images.js`)

The network is modelled as an oracle: `parseOk` says whether `new URL(url)`
succeeds (a malformed URL throws inside the `try`, resolving `{ok:false}`),
and `NetEvent` is the outcome of the issued request. -/

/-- The possible outcomes of the network request issued by `checkUrl`: the
`error` event, the `timeout` event, or a response carrying a status code and
the `content-type` header (empty string when the header is absent). -/
inductive NetEvent where
  | netError : NetEvent
  | timeout : NetEvent
  | response (status : Nat) (contentType : String) : NetEvent
deriving DecidableEq, Repr

/-- The record `checkUrl` resolves with.  The error paths resolve a bare
`{ok: false}` with no status or content type. -/
structure CheckResult where
  ok : Bool
  status : Option Nat
  contentType : Option String
deriving DecidableEq, Repr

/-- `checkUrl(url, timeout)`: every path resolves a result record (the
promise never rejects).  A parse failure, request error, or timeout yields
`{ok:false}`; a response is classified ok when its status is in [200,300)
and its lowercased content type starts with `image`. -/
def checkUrl (parseOk : Bool) (ev : NetEvent) : CheckResult :=
  if !parseOk then ⟨false, none, none⟩
  else match ev with
    | .netError => ⟨false, none, none⟩
    | .timeout => ⟨false, none, none⟩
    | .response st ctRaw =>
      let ct := lowerStr ctRaw
      ⟨decide (200 ≤ st) && decide (st < 300) && strStartsWith ct "image",
       some st, some ct⟩

/-- C7: the prober always yields a result record rather than raising — a
malformed URL, network error or timeout is classified `{ok:false}` — and a
response is ok exactly when its status is in [200,300) and its content type
begins with the image classification. -/
theorem checkUrl_total_and_classifies (p : Bool) (ev : NetEvent) (st : Nat)
    (ct : String) :
    (checkUrl false ev).ok = false ∧
    (checkUrl p NetEvent.netError).ok = false ∧
    (checkUrl p NetEvent.timeout).ok = false ∧
    ((checkUrl true (NetEvent.response st ct)).ok = true ↔
      (200 ≤ st ∧ st < 300 ∧ strStartsWith (lowerStr ct) "image" = true)) ∧
    (checkUrl true (NetEvent.response st ct)).status = some st ∧
    (checkUrl true (NetEvent.response st ct)).contentType
      = some (lowerStr ct) := by
  refine ⟨rfl, ?_, ?_, ?_, rfl, rfl⟩
  · cases p <;> rfl
  · cases p <;> rfl
  · simp [checkUrl, and_assoc]

/-! ## The deduplicator (`fix-images.js`, both passes over the blocks)

A catalog block, as far as the de-duplication passes read it: the `data-id`
capture and the first `<img src>` capture (`null` when the block has no
image reference).  The block's raw text only travels along unchanged, so
blocks are identified with these two fields. -/

structure Block where
  id : String
  src : Option String
deriving DecidableEq, Repr

/-- The drop/keep reasons reported by the two passes. -/
inductive Reason where
  | duplicateId : Reason
  | duplicateSrc : Reason
  | noSrc : Reason
  | localSrc : Reason
  | reachable : Reason
  | unreachable : Reason
deriving DecidableEq, Repr

/-- One record of the `results` array built by the first pass. -/
structure R1 where
  blk : Block
  ok : Bool
  reason : Reason
deriving DecidableEq, Repr

/-- One record of the `removed` array built by the second pass. -/
structure Removed where
  id : String
  src : String
  reason : Reason
deriving DecidableEq, Repr

/-- The test `/^https?:\/\//i.test(src)`. -/
def isRemote (s : String) : Bool :=
  strStartsWith (lowerStr s) "http://" || strStartsWith (lowerStr s) "https://"

/-- `.replace(/\?.*$/, '')`: drop everything from the first `?` on. -/
def stripQuery (s : String) : String :=
  (s.data.takeWhile (fun c => c ≠ '?')).asString

/-- `.replace(/\/$/, '')`: drop a single trailing slash. -/
def dropTrailingSlash (s : String) : String :=
  if s.data.getLast? = some '/' then s.data.dropLast.asString else s

/-- `normalizeSrc` of `fix-images.js`: strip the query component, drop one
trailing slash, lowercase.  The `new URL(src)` branch of the source clears
`u.search` and strips/case-folds `u.href` the same way; both branches are
modelled by this common strip/case-fold (the spec describes them as the
same operation), which is exact for the relative sources the theorems below
evaluate.  `normalizeSrc('')` is `''` (the `if (!src) return src` guard). -/
def normalizeSrc (s : String) : String :=
  lowerStr (dropTrailingSlash (stripQuery s))

/-- First de-duplication pass (`fix-images.js` lines 122–167): drops repeats
of a `data-id` or of a raw `src`, classifies the rest as `no-src`, `local`,
`reachable` or `unreachable` using the probe oracle, and records every
decision in order.  The id of a `duplicate-src` block is still marked seen;
the id and raw src of every block surviving the two duplicate checks are
marked seen before classification. -/
def pass1 (probe : String → Bool) :
    List Block → List String → List String → List R1
  | [], _, _ => []
  | b :: rest, seenIds, seenSrcs =>
    if seenIds.contains b.id then
      ⟨b, false, Reason.duplicateId⟩ :: pass1 probe rest seenIds seenSrcs
    else if optTruthy b.src && seenSrcs.contains (optStr b.src) then
      ⟨b, false, Reason.duplicateSrc⟩ ::
        pass1 probe rest (seenIds ++ [b.id]) seenSrcs
    else if !optTruthy b.src then
      ⟨b, false, Reason.noSrc⟩ :: pass1 probe rest (seenIds ++ [b.id]) seenSrcs
    else if !isRemote (optStr b.src) then
      ⟨b, true, Reason.localSrc⟩ ::
        pass1 probe rest (seenIds ++ [b.id]) (seenSrcs ++ [optStr b.src])
    else if probe (optStr b.src) then
      ⟨b, true, Reason.reachable⟩ ::
        pass1 probe rest (seenIds ++ [b.id]) (seenSrcs ++ [optStr b.src])
    else
      ⟨b, false, Reason.unreachable⟩ ::
        pass1 probe rest (seenIds ++ [b.id]) (seenSrcs ++ [optStr b.src])

/-- `if (norm) seenFinalSrcs.add(norm)`: mark a non-empty normalized source
as seen. -/
def normSeen (seenNorms : List String) (src : String) : List String :=
  if (normalizeSrc src).isEmpty then seenNorms
  else seenNorms ++ [normalizeSrc src]

/-- Second de-duplication pass (`fix-images.js` lines 184–220): over the
first pass's records, keeps the ok blocks whose id and non-empty normalized
src are fresh; the ids and non-empty normalized srcs of dropped records are
also marked seen (the `if (!r.ok)` branch is the first pattern). -/
def pass2 : List R1 → List String → List String → List Block × List Removed
  | [], _, _ => ([], [])
  | ⟨blk, false, reason⟩ :: rest, seenIds, seenNorms =>
    ((pass2 rest (seenIds ++ [blk.id]) (normSeen seenNorms (optStr blk.src))).1,
     ⟨blk.id, optStr blk.src, reason⟩ ::
       (pass2 rest (seenIds ++ [blk.id])
         (normSeen seenNorms (optStr blk.src))).2)
  | ⟨blk, true, _⟩ :: rest, seenIds, seenNorms =>
    if seenIds.contains blk.id then
      ((pass2 rest seenIds seenNorms).1,
       ⟨blk.id, optStr blk.src, Reason.duplicateId⟩ ::
         (pass2 rest seenIds seenNorms).2)
    else if !(normalizeSrc (optStr blk.src)).isEmpty
        && seenNorms.contains (normalizeSrc (optStr blk.src)) then
      ((pass2 rest (seenIds ++ [blk.id]) seenNorms).1,
       ⟨blk.id, optStr blk.src, Reason.duplicateSrc⟩ ::
         (pass2 rest (seenIds ++ [blk.id]) seenNorms).2)
    else
      (blk :: (pass2 rest (seenIds ++ [blk.id])
         (normSeen seenNorms (optStr blk.src))).1,
       (pass2 rest (seenIds ++ [blk.id])
         (normSeen seenNorms (optStr blk.src))).2)

/-- The complete de-duplication performed by `fix-images.js`: the first pass
over the extracted blocks followed by the second pass over its records.
Returns the kept blocks in order and the removal report. -/
def dedupTool (probe : String → Bool) (blocks : List Block) :
    List Block × List Removed :=
  pass2 (pass1 probe blocks [] []) [] []

theorem contains_snoc (l : List String) (a x : String) :
    (l ++ [a]).contains x = (l.contains x || decide (x = a)) := by
  simp

theorem contains_congr_snoc {l₁ l₂ : List String} (a : String)
    (h : ∀ x, l₁.contains x = l₂.contains x) :
    ∀ x, (l₁ ++ [a]).contains x = (l₂ ++ [a]).contains x := by
  intro x
  rw [contains_snoc, contains_snoc, h]

theorem contains_congr_snoc_mem {l₁ l₂ : List String} {a : String}
    (h : ∀ x, l₁.contains x = l₂.contains x) (ha : l₁.contains a = true) :
    ∀ x, l₁.contains x = (l₂ ++ [a]).contains x := by
  intro x
  rw [contains_snoc, ← h]
  by_cases hx : x = a
  · subst hx
    rw [ha]
    simp
  · simp [hx]

/-! ### C2: the claimed single-pass decision procedure

`dedupClaimed` follows the claim's words: one pass, deciding each block in
the order (1) duplicate id, (2) non-empty normalized source already seen
(the id still marked seen), (3) empty source, (4) local source kept, (5)
probe decides; a block dropped at rule 1 records nothing, and a block
surviving rules 1–2 marks its id and non-empty normalized source as seen. -/
def dedupClaimed (probe : String → Bool) :
    List Block → List String → List String → List Block × List Removed
  | [], _, _ => ([], [])
  | b :: rest, seenIds, seenNorms =>
    let src := optStr b.src
    let norm := normalizeSrc src
    if seenIds.contains b.id then
      let p := dedupClaimed probe rest seenIds seenNorms
      (p.1, ⟨b.id, src, Reason.duplicateId⟩ :: p.2)
    else if !norm.isEmpty && seenNorms.contains norm then
      let p := dedupClaimed probe rest (seenIds ++ [b.id]) seenNorms
      (p.1, ⟨b.id, src, Reason.duplicateSrc⟩ :: p.2)
    else
      let seenIds' := seenIds ++ [b.id]
      let seenNorms' := if norm.isEmpty then seenNorms else seenNorms ++ [norm]
      if src.isEmpty then
        let p := dedupClaimed probe rest seenIds' seenNorms'
        (p.1, ⟨b.id, src, Reason.noSrc⟩ :: p.2)
      else if !isRemote src then
        let p := dedupClaimed probe rest seenIds' seenNorms'
        (b :: p.1, p.2)
      else if probe src then
        let p := dedupClaimed probe rest seenIds' seenNorms'
        (b :: p.1, p.2)
      else
        let p := dedupClaimed probe rest seenIds' seenNorms'
        (p.1, ⟨b.id, src, Reason.unreachable⟩ :: p.2)

/-- C2 counterexample: the tool's two-pass de-duplication is not the claimed
single-pass procedure.  On blocks `a/x`, `a/y`, `b/y` the second block is
dropped at rule 1 (duplicate id), after which the claimed procedure keeps
`b/y` as a fresh local block — but the tool also records the normalized
sources of already-dropped blocks, so it drops `b/y` as `duplicate-src` and
keeps only `a/x`. -/
theorem dedupTool_ne_claimed_single_pass :
    (dedupTool (fun _ => true)
      [⟨"a", some "x"⟩, ⟨"a", some "y"⟩, ⟨"b", some "y"⟩]).1 ≠
    (dedupClaimed (fun _ => true)
      [⟨"a", some "x"⟩, ⟨"a", some "y"⟩, ⟨"b", some "y"⟩] [] []).1 := by
  decide

/-! ### C2 amended: the fused single-pass characterization of both passes -/

/-- The de-duplication the tool actually performs, characterized as one pass
over the blocks.  Three seen-sets evolve: ids of all processed blocks, raw
sources of blocks surviving the duplicate checks, and non-empty normalized
sources of all processed blocks.  Rules, in order: (1) seen id →
`duplicate-id`; (2) truthy raw source already seen → `duplicate-src`; (3)
empty source → `no-src`; (4) remote and probe not ok → `unreachable`; (5)
non-empty normalized source already seen → `duplicate-src`; (6) else kept. -/
def dedupAmended (probe : String → Bool) :
    List Block → List String → List String → List String →
      List Block × List Removed
  | [], _, _, _ => ([], [])
  | b :: rest, seenIds, seenRaws, seenNorms =>
    if seenIds.contains b.id then
      ((dedupAmended probe rest (seenIds ++ [b.id]) seenRaws
         (normSeen seenNorms (optStr b.src))).1,
       ⟨b.id, optStr b.src, Reason.duplicateId⟩ ::
         (dedupAmended probe rest (seenIds ++ [b.id]) seenRaws
           (normSeen seenNorms (optStr b.src))).2)
    else if optTruthy b.src && seenRaws.contains (optStr b.src) then
      ((dedupAmended probe rest (seenIds ++ [b.id]) seenRaws
         (normSeen seenNorms (optStr b.src))).1,
       ⟨b.id, optStr b.src, Reason.duplicateSrc⟩ ::
         (dedupAmended probe rest (seenIds ++ [b.id]) seenRaws
           (normSeen seenNorms (optStr b.src))).2)
    else if !optTruthy b.src then
      ((dedupAmended probe rest (seenIds ++ [b.id]) seenRaws
         (normSeen seenNorms (optStr b.src))).1,
       ⟨b.id, optStr b.src, Reason.noSrc⟩ ::
         (dedupAmended probe rest (seenIds ++ [b.id]) seenRaws
           (normSeen seenNorms (optStr b.src))).2)
    else if isRemote (optStr b.src) && !probe (optStr b.src) then
      ((dedupAmended probe rest (seenIds ++ [b.id])
         (seenRaws ++ [optStr b.src]) (normSeen seenNorms (optStr b.src))).1,
       ⟨b.id, optStr b.src, Reason.unreachable⟩ ::
         (dedupAmended probe rest (seenIds ++ [b.id])
           (seenRaws ++ [optStr b.src])
           (normSeen seenNorms (optStr b.src))).2)
    else if !(normalizeSrc (optStr b.src)).isEmpty
        && seenNorms.contains (normalizeSrc (optStr b.src)) then
      ((dedupAmended probe rest (seenIds ++ [b.id])
         (seenRaws ++ [optStr b.src]) seenNorms).1,
       ⟨b.id, optStr b.src, Reason.duplicateSrc⟩ ::
         (dedupAmended probe rest (seenIds ++ [b.id])
           (seenRaws ++ [optStr b.src]) seenNorms).2)
    else
      (b :: (dedupAmended probe rest (seenIds ++ [b.id])
         (seenRaws ++ [optStr b.src]) (normSeen seenNorms (optStr b.src))).1,
       (dedupAmended probe rest (seenIds ++ [b.id])
         (seenRaws ++ [optStr b.src]) (normSeen seenNorms (optStr b.src))).2)

theorem bool_ne_true {c : Bool} (h : c = false) : ¬ c = true := by
  simp [h]

theorem pass2_pass1_eq_amended (probe : String → Bool) (blocks : List Block) :
    ∀ sI sS fI fS mI : List String,
      (∀ x, sI.contains x = fI.contains x) →
      (∀ x, sI.contains x = mI.contains x) →
      pass2 (pass1 probe blocks sI sS) fI fS =
        dedupAmended probe blocks mI sS fS := by
  induction blocks with
  | nil =>
    intro sI sS fI fS mI hIf hIm
    rfl
  | cons b rest ih =>
    intro sI sS fI fS mI hIf hIm
    by_cases h1 : sI.contains b.id = true
    · -- pass 1 drops the block as duplicate-id; the fused rule 1 matches
      have hm1 : mI.contains b.id = true := (hIm b.id) ▸ h1
      rw [pass1, if_pos h1, pass2, dedupAmended, if_pos hm1]
      rw [ih sI sS (fI ++ [b.id]) (normSeen fS (optStr b.src)) (mI ++ [b.id])
        (contains_congr_snoc_mem hIf h1) (contains_congr_snoc_mem hIm h1)]
    · have h1' : sI.contains b.id = false := by
        simpa using h1
      have hf1 : fI.contains b.id = false := (hIf b.id) ▸ h1'
      have hm1 : mI.contains b.id = false := (hIm b.id) ▸ h1'
      by_cases h2 : (optTruthy b.src && sS.contains (optStr b.src)) = true
      · -- pass 1 drops the block as a raw-source duplicate; fused rule 2
        rw [pass1, if_neg (bool_ne_true h1'), if_pos h2, pass2, dedupAmended,
          if_neg (bool_ne_true hm1), if_pos h2]
        rw [ih (sI ++ [b.id]) sS (fI ++ [b.id]) (normSeen fS (optStr b.src))
          (mI ++ [b.id]) (contains_congr_snoc _ hIf) (contains_congr_snoc _ hIm)]
      · have h2' : (optTruthy b.src && sS.contains (optStr b.src)) = false := by
          simpa using h2
        by_cases h3 : optTruthy b.src = true
        · have h3' : (!optTruthy b.src) = false := by
            rw [h3]
            rfl
          by_cases h4 : isRemote (optStr b.src) = true
          · by_cases h5 : probe (optStr b.src) = true
            · -- pass 1 keeps the block as reachable; fused rules 5/6 decide
              have h45 : (isRemote (optStr b.src) && !probe (optStr b.src))
                  = false := by
                rw [h4, h5]
                rfl
              have h4' : (!isRemote (optStr b.src)) = false := by
                rw [h4]
                rfl
              rw [pass1, if_neg (bool_ne_true h1'), if_neg (bool_ne_true h2'),
                if_neg (bool_ne_true h3'), if_neg (bool_ne_true h4'),
                if_pos h5, pass2, if_neg (bool_ne_true hf1), dedupAmended,
                if_neg (bool_ne_true hm1), if_neg (bool_ne_true h2'),
                if_neg (bool_ne_true h3'), if_neg (bool_ne_true h45)]
              by_cases h6 : (!(normalizeSrc (optStr b.src)).isEmpty
                  && fS.contains (normalizeSrc (optStr b.src))) = true
              · rw [if_pos h6, if_pos h6]
                rw [ih (sI ++ [b.id]) (sS ++ [optStr b.src]) (fI ++ [b.id]) fS
                  (mI ++ [b.id]) (contains_congr_snoc _ hIf)
                  (contains_congr_snoc _ hIm)]
              · have h6' : (!(normalizeSrc (optStr b.src)).isEmpty
                    && fS.contains (normalizeSrc (optStr b.src))) = false := by
                  simpa using h6
                rw [if_neg (bool_ne_true h6'), if_neg (bool_ne_true h6')]
                rw [ih (sI ++ [b.id]) (sS ++ [optStr b.src]) (fI ++ [b.id])
                  (normSeen fS (optStr b.src)) (mI ++ [b.id])
                  (contains_congr_snoc _ hIf) (contains_congr_snoc _ hIm)]
            · -- pass 1 drops the block as unreachable; fused rule 4
              have h5' : probe (optStr b.src) = false := by
                simpa using h5
              have h45 : (isRemote (optStr b.src) && !probe (optStr b.src))
                  = true := by
                rw [h4, h5']
                rfl
              have h4' : (!isRemote (optStr b.src)) = false := by
                rw [h4]
                rfl
              rw [pass1, if_neg (bool_ne_true h1'), if_neg (bool_ne_true h2'),
                if_neg (bool_ne_true h3'), if_neg (bool_ne_true h4'),
                if_neg (bool_ne_true h5'), pass2, dedupAmended,
                if_neg (bool_ne_true hm1), if_neg (bool_ne_true h2'),
                if_neg (bool_ne_true h3'), if_pos h45]
              rw [ih (sI ++ [b.id]) (sS ++ [optStr b.src]) (fI ++ [b.id])
                (normSeen fS (optStr b.src)) (mI ++ [b.id])
                (contains_congr_snoc _ hIf) (contains_congr_snoc _ hIm)]
          · -- pass 1 keeps the block as local; fused rules 5/6 decide
            have h4' : isRemote (optStr b.src) = false := by
              simpa using h4
            have h4'' : (!isRemote (optStr b.src)) = true := by
              rw [h4']
              rfl
            have h45 : (isRemote (optStr b.src) && !probe (optStr b.src))
                = false := by
              rw [h4']
              rfl
            rw [pass1, if_neg (bool_ne_true h1'), if_neg (bool_ne_true h2'),
              if_neg (bool_ne_true h3'), if_pos h4'', pass2,
              if_neg (bool_ne_true hf1), dedupAmended,
              if_neg (bool_ne_true hm1), if_neg (bool_ne_true h2'),
              if_neg (bool_ne_true h3'), if_neg (bool_ne_true h45)]
            by_cases h6 : (!(normalizeSrc (optStr b.src)).isEmpty
                && fS.contains (normalizeSrc (optStr b.src))) = true
            · rw [if_pos h6, if_pos h6]
              rw [ih (sI ++ [b.id]) (sS ++ [optStr b.src]) (fI ++ [b.id]) fS
                (mI ++ [b.id]) (contains_congr_snoc _ hIf)
                (contains_congr_snoc _ hIm)]
            · have h6' : (!(normalizeSrc (optStr b.src)).isEmpty
                  && fS.contains (normalizeSrc (optStr b.src))) = false := by
                simpa using h6
              rw [if_neg (bool_ne_true h6'), if_neg (bool_ne_true h6')]
              rw [ih (sI ++ [b.id]) (sS ++ [optStr b.src]) (fI ++ [b.id])
                (normSeen fS (optStr b.src)) (mI ++ [b.id])
                (contains_congr_snoc _ hIf) (contains_congr_snoc _ hIm)]
        · -- pass 1 drops the block as no-src; fused rule 3
          have h3' : optTruthy b.src = false := by
            simpa using h3
          have h3'' : (!optTruthy b.src) = true := by
            rw [h3']
            rfl
          have h2f : (optTruthy b.src && sS.contains (optStr b.src))
              = false := by
            rw [h3']
            rfl
          rw [pass1, if_neg (bool_ne_true h1'), if_neg (bool_ne_true h2f),
            if_pos h3'', pass2, dedupAmended, if_neg (bool_ne_true hm1),
            if_neg (bool_ne_true h2f), if_pos h3'']
          rw [ih (sI ++ [b.id]) sS (fI ++ [b.id]) (normSeen fS (optStr b.src))
            (mI ++ [b.id]) (contains_congr_snoc _ hIf)
            (contains_congr_snoc _ hIm)]

/-- C2 amended: for every input block sequence and fixed probe results, the
Deduplicator (both passes together) decides each block, in order, by: (1)
seen id → drop `duplicate-id`; (2) non-empty raw source already seen → drop
`duplicate-src`, the id still marked seen; (3) empty source → drop
`no-src`; (4) remote source failing the probe → drop `unreachable`; (5)
non-empty normalized source already seen → drop `duplicate-src`; (6)
otherwise kept (`local`/`reachable`), in original order — where seen ids
and seen non-empty normalized sources accumulate over all processed blocks
(kept or dropped), while seen raw sources accumulate only over blocks that
survive rules 1–2. -/
theorem dedupTool_eq_amended (probe : String → Bool) (blocks : List Block) :
    dedupTool probe blocks = dedupAmended probe blocks [] [] [] :=
  pass2_pass1_eq_amended probe blocks [] [] [] [] []
    (fun _ => rfl) (fun _ => rfl)

/-! ## C9: the de-duplication is idempotent -/

theorem contains_snoc_false_left {l : List String} {a x : String}
    (h : (l ++ [a]).contains x = false) : l.contains x = false := by
  rw [contains_snoc] at h
  exact (Bool.or_eq_false_iff.mp h).1

theorem contains_snoc_false_ne {l : List String} {a x : String}
    (h : (l ++ [a]).contains x = false) : x ≠ a := by
  rw [contains_snoc] at h
  exact of_decide_eq_false (Bool.or_eq_false_iff.mp h).2

theorem contains_normSeen_false {sN : List String} {s x : String}
    (h : (normSeen sN s).contains x = false) : sN.contains x = false := by
  unfold normSeen at h
  split at h
  · exact h
  · exact contains_snoc_false_left h

/-- A block the tool may keep: a truthy source whose probe succeeds when the
source is remote. -/
def keptBlockOk (probe : String → Bool) (b : Block) : Prop :=
  optTruthy b.src = true ∧
  (isRemote (optStr b.src) = true → probe (optStr b.src) = true)

/-- A block none of whose keys are already in the three seen-sets. -/
def freshFor (b : Block) (sI sS sN : List String) : Prop :=
  sI.contains b.id = false ∧
  sS.contains (optStr b.src) = false ∧
  ((normalizeSrc (optStr b.src)).isEmpty = false →
    sN.contains (normalizeSrc (optStr b.src)) = false)

/-- Pairwise separation of kept blocks: distinct ids, distinct raw sources,
and distinct normalized sources when the earlier one is non-empty. -/
def blockSep (a b : Block) : Prop :=
  a.id ≠ b.id ∧ optStr a.src ≠ optStr b.src ∧
  ((normalizeSrc (optStr a.src)).isEmpty = false →
    normalizeSrc (optStr a.src) ≠ normalizeSrc (optStr b.src))

theorem freshFor_weaken {b : Block} {sI sS sN : List String}
    {i : String} {sS' sN' : List String}
    (hS : sS' = sS ∨ ∃ s, sS' = sS ++ [s])
    (hN : sN' = sN ∨ ∃ s, sN' = normSeen sN s)
    (h : freshFor b (sI ++ [i]) sS' sN') : freshFor b sI sS sN := by
  obtain ⟨h1, h2, h3⟩ := h
  refine ⟨contains_snoc_false_left h1, ?_, ?_⟩
  · rcases hS with rfl | ⟨s, rfl⟩
    · exact h2
    · exact contains_snoc_false_left h2
  · intro hne
    rcases hN with rfl | ⟨s, rfl⟩
    · exact h3 hne
    · exact contains_normSeen_false (h3 hne)

/-- Every block the fused de-duplication keeps has a truthy source that
passes the probe when remote, was fresh with respect to the run's initial
seen-sets, and the kept blocks are pairwise separated. -/
theorem dedupAmended_kept_facts (probe : String → Bool) :
    ∀ (blocks : List Block) (sI sS sN : List String),
      (∀ b ∈ (dedupAmended probe blocks sI sS sN).1,
        keptBlockOk probe b ∧ freshFor b sI sS sN) ∧
      List.Pairwise blockSep (dedupAmended probe blocks sI sS sN).1 := by
  intro blocks
  induction blocks with
  | nil =>
    intro sI sS sN
    exact ⟨fun b hb => absurd hb (List.not_mem_nil b), List.Pairwise.nil⟩
  | cons b rest ih =>
    intro sI sS sN
    by_cases h1 : sI.contains b.id = true
    · rw [dedupAmended, if_pos h1]
      refine ⟨fun b' hb' => ?_, (ih _ _ _).2⟩
      have h' := (ih (sI ++ [b.id]) sS (normSeen sN (optStr b.src))).1 b' hb'
      exact ⟨h'.1, freshFor_weaken (Or.inl rfl)
        (Or.inr ⟨optStr b.src, rfl⟩) h'.2⟩
    · have h1' : sI.contains b.id = false := by
        simpa using h1
      by_cases h2 : (optTruthy b.src && sS.contains (optStr b.src)) = true
      · rw [dedupAmended, if_neg (bool_ne_true h1'), if_pos h2]
        refine ⟨fun b' hb' => ?_, (ih _ _ _).2⟩
        have h' := (ih (sI ++ [b.id]) sS (normSeen sN (optStr b.src))).1 b' hb'
        exact ⟨h'.1, freshFor_weaken (Or.inl rfl)
          (Or.inr ⟨optStr b.src, rfl⟩) h'.2⟩
      · have h2' : (optTruthy b.src && sS.contains (optStr b.src)) = false := by
          simpa using h2
        by_cases h3 : (!optTruthy b.src) = true
        · rw [dedupAmended, if_neg (bool_ne_true h1'),
            if_neg (bool_ne_true h2'), if_pos h3]
          refine ⟨fun b' hb' => ?_, (ih _ _ _).2⟩
          have h' := (ih (sI ++ [b.id]) sS (normSeen sN (optStr b.src))).1 b' hb'
          exact ⟨h'.1, freshFor_weaken (Or.inl rfl)
            (Or.inr ⟨optStr b.src, rfl⟩) h'.2⟩
        · have h3' : (!optTruthy b.src) = false := by
            simpa using h3
          have h3t : optTruthy b.src = true := by
            simpa using h3'
          by_cases h4 : (isRemote (optStr b.src) && !probe (optStr b.src))
              = true
          · rw [dedupAmended, if_neg (bool_ne_true h1'),
              if_neg (bool_ne_true h2'), if_neg (bool_ne_true h3'),
              if_pos h4]
            refine ⟨fun b' hb' => ?_, (ih _ _ _).2⟩
            have h' := (ih (sI ++ [b.id]) (sS ++ [optStr b.src])
              (normSeen sN (optStr b.src))).1 b' hb'
            exact ⟨h'.1, freshFor_weaken (Or.inr ⟨optStr b.src, rfl⟩)
              (Or.inr ⟨optStr b.src, rfl⟩) h'.2⟩
          · have h4' : (isRemote (optStr b.src) && !probe (optStr b.src))
                = false := by
              simpa using h4
            by_cases h5 : (!(normalizeSrc (optStr b.src)).isEmpty
                && sN.contains (normalizeSrc (optStr b.src))) = true
            · rw [dedupAmended, if_neg (bool_ne_true h1'),
                if_neg (bool_ne_true h2'), if_neg (bool_ne_true h3'),
                if_neg (bool_ne_true h4'), if_pos h5]
              refine ⟨fun b' hb' => ?_, (ih _ _ _).2⟩
              have h' := (ih (sI ++ [b.id]) (sS ++ [optStr b.src]) sN).1 b' hb'
              exact ⟨h'.1, freshFor_weaken (Or.inr ⟨optStr b.src, rfl⟩)
                (Or.inl rfl) h'.2⟩
            · have h5' : (!(normalizeSrc (optStr b.src)).isEmpty
                  && sN.contains (normalizeSrc (optStr b.src))) = false := by
                simpa using h5
              rw [dedupAmended, if_neg (bool_ne_true h1'),
                if_neg (bool_ne_true h2'), if_neg (bool_ne_true h3'),
                if_neg (bool_ne_true h4'), if_neg (bool_ne_true h5')]
              have hrec := ih (sI ++ [b.id]) (sS ++ [optStr b.src])
                (normSeen sN (optStr b.src))
              have hbOk : keptBlockOk probe b := by
                refine ⟨h3t, fun hr => ?_⟩
                rw [hr, Bool.true_and] at h4'
                simpa using h4'
              have hbFresh : freshFor b sI sS sN := by
                refine ⟨h1', ?_, ?_⟩
                · rw [h3t, Bool.true_and] at h2'
                  exact h2'
                · intro hne
                  rw [hne, Bool.not_false, Bool.true_and] at h5'
                  exact h5'
              constructor
              · intro b' hb'
                rcases List.mem_cons.mp hb' with rfl | hb''
                · exact ⟨hbOk, hbFresh⟩
                · have h' := hrec.1 b' hb''
                  exact ⟨h'.1, freshFor_weaken (Or.inr ⟨optStr b.src, rfl⟩)
                    (Or.inr ⟨optStr b.src, rfl⟩) h'.2⟩
              · refine List.Pairwise.cons (fun b' hb' => ?_) hrec.2
                have h' := (hrec.1 b' hb').2
                refine ⟨(contains_snoc_false_ne h'.1).symm,
                  (contains_snoc_false_ne h'.2.1).symm, fun hne hnormeq => ?_⟩
                by_cases hbe : (normalizeSrc (optStr b'.src)).isEmpty = false
                · have h'' := h'.2.2 hbe
                  unfold normSeen at h''
                  rw [if_neg (by rw [hne]; exact Bool.false_ne_true)] at h''
                  exact contains_snoc_false_ne h'' hnormeq.symm
                · have : (normalizeSrc (optStr b'.src)).isEmpty = true := by
                    simpa using hbe
                  rw [← hnormeq] at this
                  rw [hne] at this
                  exact Bool.false_ne_true this

/-- A run of the fused de-duplication over pairwise-separated keepable
blocks, all fresh for the initial seen-sets, keeps everything and removes
nothing. -/
theorem dedupAmended_run_clean (probe : String → Bool) :
    ∀ (K : List Block) (sI sS sN : List String),
      (∀ b ∈ K, keptBlockOk probe b ∧ freshFor b sI sS sN) →
      List.Pairwise blockSep K →
      dedupAmended probe K sI sS sN = (K, []) := by
  intro K
  induction K with
  | nil =>
    intro sI sS sN _ _
    rfl
  | cons b rest ih =>
    intro sI sS sN hfacts hsep
    obtain ⟨⟨h3t, hprobe⟩, ⟨h1', hraw, hnorm⟩⟩ :=
      hfacts b (List.mem_cons_self b rest)
    have h2' : (optTruthy b.src && sS.contains (optStr b.src)) = false := by
      rw [hraw, Bool.and_false]
    have h3' : (!optTruthy b.src) = false := by
      rw [h3t]
      rfl
    have h4' : (isRemote (optStr b.src) && !probe (optStr b.src)) = false := by
      by_cases hr : isRemote (optStr b.src) = true
      · rw [hr, hprobe hr]
        rfl
      · rw [(by simpa using hr : isRemote (optStr b.src) = false),
          Bool.false_and]
    have h5' : (!(normalizeSrc (optStr b.src)).isEmpty
        && sN.contains (normalizeSrc (optStr b.src))) = false := by
      by_cases he : (normalizeSrc (optStr b.src)).isEmpty = true
      · rw [he]
        rfl
      · have he' : (normalizeSrc (optStr b.src)).isEmpty = false := by
          simpa using he
        rw [hnorm he', Bool.and_false]
    rw [dedupAmended, if_neg (bool_ne_true h1'), if_neg (bool_ne_true h2'),
      if_neg (bool_ne_true h3'), if_neg (bool_ne_true h4'),
      if_neg (bool_ne_true h5')]
    have hsepb := List.pairwise_cons.mp hsep
    rw [ih (sI ++ [b.id]) (sS ++ [optStr b.src]) (normSeen sN (optStr b.src))
      ?_ hsepb.2]
    intro b' hb'
    obtain ⟨hok', ⟨hi', hs', hn'⟩⟩ := hfacts b' (List.mem_cons_of_mem b hb')
    obtain ⟨hid, hsrc, hnrm⟩ := hsepb.1 b' hb'
    refine ⟨hok', ⟨?_, ?_, ?_⟩⟩
    · rw [contains_snoc, hi', Bool.false_or]
      exact decide_eq_false (Ne.symm hid)
    · rw [contains_snoc, hs', Bool.false_or]
      exact decide_eq_false (Ne.symm hsrc)
    · intro hne
      unfold normSeen
      split
      · exact hn' hne
      · rename_i hbne
        have hbne' : (normalizeSrc (optStr b.src)).isEmpty = false := by
          simpa using hbne
        rw [contains_snoc, hn' hne, Bool.false_or]
        exact decide_eq_false (Ne.symm (hnrm hbne'))

/-- C9: de-duplication is idempotent — running the tool's Deduplicator on
its own kept output (with the same probe results) keeps exactly that output
in the same order and drops nothing on the second run. -/
theorem dedupTool_idempotent (probe : String → Bool) (blocks : List Block) :
    dedupTool probe (dedupTool probe blocks).1 =
      ((dedupTool probe blocks).1, []) := by
  have key : ∀ bs : List Block,
      dedupTool probe bs = dedupAmended probe bs [] [] [] := fun bs =>
    pass2_pass1_eq_amended probe bs [] [] [] [] [] (fun _ => rfl) (fun _ => rfl)
  rw [key, key]
  exact dedupAmended_run_clean probe _ [] [] []
    (fun b hb => (dedupAmended_kept_facts probe blocks [] [] []).1 b hb)
    (dedupAmended_kept_facts probe blocks [] [] []).2

/-! ## C1: the ledger reconciler (`resetCounters.js`, reconciler script)

The script collects every `data-id` of `index.html` into `ids`, then adds a
zero-initialized `views.json` entry for each id without one (counting
`added`), and deletes every entry whose id is not in `ids` (counting
`removed`).  The `else` branch normalizes an existing entry's fields in
place, which on a well-typed entry (counts already finite numbers, members
already an array) changes nothing. -/

/-- The `ids.forEach` loop: add a zero entry for each id missing from the
store, counting additions. -/
def reconAdd : List String → List (String × Entry) →
    List (String × Entry) × Nat
  | [], views => (views, 0)
  | id :: rest, views =>
    match alookup views id with
    | some _ => reconAdd rest views
    | none =>
      ((reconAdd rest (views ++ [(id, zeroEntry)])).1,
       (reconAdd rest (views ++ [(id, zeroEntry)])).2 + 1)

/-- The `Object.keys(views).forEach` loop: delete entries whose id is not in
`ids`, counting deletions. -/
def reconRemove (ids : List String) (views : List (String × Entry)) :
    List (String × Entry) × Nat :=
  (views.filter (fun p => ids.contains p.1),
   (views.filter (fun p => !ids.contains p.1)).length)

/-- The whole reconciliation: additions, then deletions; returns the new
store and the `(added, removed)` summary counts. -/
def reconcile (ids : List String) (views : List (String × Entry)) :
    List (String × Entry) × Nat × Nat :=
  ((reconRemove ids (reconAdd ids views).1).1,
   (reconAdd ids views).2,
   (reconRemove ids (reconAdd ids views).1).2)

theorem alookup_reconAdd (ids : List String) :
    ∀ (views : List (String × Entry)) (id : String),
      alookup (reconAdd ids views).1 id =
        (match alookup views id with
         | some e => some e
         | none =>
           if ids.contains id = true then some zeroEntry else none) := by
  induction ids with
  | nil =>
    intro views id
    cases h : alookup views id <;> simp [reconAdd, h]
  | cons i rest ih =>
    intro views id
    rw [reconAdd]
    cases hv : alookup views i with
    | some e =>
      rw [ih views id]
      cases hid : alookup views id with
      | some e' => rfl
      | none =>
        have hne : ¬ i = id := fun h => by
          rw [h, hid] at hv
          cases hv
        simp only [List.contains_cons]
        simp [Ne.symm hne]
    | none =>
      rw [ih (views ++ [(i, zeroEntry)]) id, alookup_append_single]
      cases hid : alookup views id with
      | some e' => rfl
      | none =>
        by_cases hne : i = id
        · subst hne
          simp
        · simp only [if_neg hne, List.contains_cons]
          simp [Ne.symm hne]

theorem filter_drop_ne {p : String → Bool} {x : String} (hp' : p x = false) :
    ∀ ys : List String,
      (ys.filter (fun y => decide (y ≠ x))).filter p = ys.filter p := by
  intro ys
  induction ys with
  | nil => rfl
  | cons y ys ihy =>
    by_cases hy : y = x
    · subst hy
      rw [List.filter_cons_of_neg (by simp),
        List.filter_cons_of_neg (by simp [hp'])]
      exact ihy
    · rw [List.filter_cons_of_pos (by simp [hy])]
      by_cases hpy : p y = true
      · rw [List.filter_cons_of_pos hpy, List.filter_cons_of_pos hpy, ihy]
      · have hpy' : p y = false := by
          simpa using hpy
        rw [List.filter_cons_of_neg (by simp [hpy']),
          List.filter_cons_of_neg (by simp [hpy']), ihy]

theorem jsSetOfList_filter (p : String → Bool) :
    ∀ l : List String, (jsSetOfList l).filter p = jsSetOfList (l.filter p) := by
  intro l
  induction l using jsSetOfList.induct with
  | case1 => simp [jsSetOfList]
  | case2 x xs ih =>
    rw [jsSetOfList]
    by_cases hp : p x = true
    · rw [List.filter_cons_of_pos hp, ih, List.filter_cons_of_pos hp,
        jsSetOfList]
      congr 1
      exact congrArg jsSetOfList (List.filter_comm p _ xs)
    · have hp' : p x = false := by
        simpa using hp
      rw [List.filter_cons_of_neg (by simp [hp']), ih, filter_drop_ne hp',
        List.filter_cons_of_neg (by simp [hp'])]

theorem filter_congr_ne {p p' : String → Bool} {i : String}
    (hpi : p' i = false) (hagree : ∀ x, x ≠ i → p' x = p x) :
    ∀ l : List String,
      l.filter p' = (l.filter (fun x => decide (x ≠ i))).filter p := by
  intro l
  induction l with
  | nil => rfl
  | cons x xs ih =>
    simp only [List.filter_cons]
    by_cases hx : x = i
    · subst hx
      rw [if_neg (by simp [hpi]), if_neg (by simp), ih]
    · rw [hagree x hx, if_pos (by simp [hx] : decide (x ≠ i) = true)]
      simp only [List.filter_cons]
      by_cases hpx : p x = true
      · rw [if_pos hpx, if_pos hpx, ih]
      · rw [if_neg hpx, if_neg hpx, ih]

theorem reconAdd_added (ids : List String) :
    ∀ views : List (String × Entry),
      (reconAdd ids views).2 =
        ((jsSetOfList ids).filter
          (fun i => (alookup views i).isNone)).length := by
  induction ids with
  | nil =>
    intro views
    simp [reconAdd, jsSetOfList]
  | cons i rest ih =>
    intro views
    rw [reconAdd]
    cases hv : alookup views i with
    | some e =>
      rw [ih views, jsSetOfList,
        List.filter_cons_of_neg (by simp [hv]), jsSetOfList_filter,
        jsSetOfList_filter, filter_drop_ne (by simp [hv])]
    | none =>
      have hagree : ∀ x, x ≠ i →
          (fun x => (alookup (views ++ [(i, zeroEntry)]) x).isNone) x =
            (fun x => (alookup views x).isNone) x := by
        intro x hx
        simp only
        rw [alookup_append_single]
        cases hvx : alookup views x with
        | some e => rfl
        | none => simp [Ne.symm hx]
      rw [ih (views ++ [(i, zeroEntry)]),
        filter_congr_ne (by simp [alookup_append_single, hv]) hagree,
        jsSetOfList, List.filter_cons_of_pos (by simp [hv]), List.length_cons,
        jsSetOfList_filter, jsSetOfList_filter]

theorem reconAdd_extends (ids : List String) :
    ∀ views : List (String × Entry),
      ∃ extra, (reconAdd ids views).1 = views ++ extra ∧
        ∀ p ∈ extra, ids.contains p.1 = true := by
  induction ids with
  | nil =>
    intro views
    exact ⟨[], by simp [reconAdd], fun p hp => absurd hp (List.not_mem_nil p)⟩
  | cons i rest ih =>
    intro views
    rw [reconAdd]
    cases hv : alookup views i with
    | some e =>
      obtain ⟨extra, he, hmem⟩ := ih views
      refine ⟨extra, he, fun p hp => ?_⟩
      have := hmem p hp
      simp only [List.contains_cons]
      rw [this, Bool.or_true]
    | none =>
      obtain ⟨extra, he, hmem⟩ := ih (views ++ [(i, zeroEntry)])
      refine ⟨(i, zeroEntry) :: extra, by rw [he]; simp, ?_⟩
      intro p hp
      rcases List.mem_cons.mp hp with rfl | hp'
      · simp
      · have := hmem p hp'
        simp only [List.contains_cons]
        rw [this, Bool.or_true]

theorem alookup_filter_keys {q : String → Bool} :
    ∀ (l : List (String × Entry)) (k : String),
      alookup (l.filter (fun p => q p.1)) k =
        (if q k = true then alookup l k else none) := by
  intro l
  induction l with
  | nil =>
    intro k
    by_cases h : q k = true <;> simp [h, alookup]
  | cons p rest ih =>
    intro k
    simp only [List.filter_cons]
    by_cases hq : q p.1 = true
    · rw [if_pos hq]
      by_cases hk : p.1 = k
      · subst hk
        simp [alookup, hq]
      · simp only [alookup, hk, if_neg, not_false_iff]
        exact ih k
    · have hq' : q p.1 = false := by
        simpa using hq
      rw [if_neg hq]
      by_cases hk : p.1 = k
      · subst hk
        rw [ih p.1, if_neg (by simp [hq']),
          (by simp [alookup] : alookup (p :: rest) p.1 = some p.2),
          if_neg (by simp [hq'])]
      · rw [ih k]
        by_cases hqk : q k = true
        · rw [if_pos hqk, if_pos hqk]
          simp [alookup, hk]
        · rw [if_neg hqk, if_neg hqk]

/-- C1: reconciliation resynchronizes the store's entry set to the catalog
ids: every catalog id missing from the store gets a zero-initialized entry,
every entry whose id is not in the catalog is deleted, entries present on
both sides keep their counts unchanged, and the summary counts the distinct
missing ids that were added and the entries that were removed. -/
theorem reconcile_resyncs (ids : List String)
    (views : List (String × Entry)) :
    (∀ id, alookup (reconcile ids views).1 id =
      (if ids.contains id = true then
        (match alookup views id with
         | some e => some e
         | none => some zeroEntry)
       else none)) ∧
    (reconcile ids views).2.1 =
      ((jsSetOfList ids).filter (fun i => (alookup views i).isNone)).length ∧
    (reconcile ids views).2.2 =
      (views.filter (fun p => !ids.contains p.1)).length := by
  refine ⟨?_, reconAdd_added ids views, ?_⟩
  · intro id
    show alookup ((reconAdd ids views).1.filter
      (fun p => ids.contains p.1)) id = _
    rw [alookup_filter_keys, alookup_reconAdd]
    by_cases hin : ids.contains id = true
    · rw [if_pos hin, if_pos hin, if_pos hin]
    · rw [if_neg hin, if_neg hin]
  · show ((reconAdd ids views).1.filter
      (fun p => !ids.contains p.1)).length = _
    obtain ⟨extra, he, hmem⟩ := reconAdd_extends ids views
    rw [he, List.filter_append]
    have : extra.filter (fun p => !ids.contains p.1) = [] := by
      refine List.filter_eq_nil_iff.mpr ?_
      intro p hp
      rw [hmem p hp]
      simp
    rw [this, List.append_nil]

/-! ## C8: the catalog extractor (`extractImageContainers` and the gallery
lookup of `main` in `fix-images.js`)

The scanning is modelled over `String.data`.  `html.indexOf` is exact and
case-sensitive; the three regexes (`classRe`, `dataIdRe`, the balanced
`<div`/`</div>` scanner, and `galleryRe`) carry the `i` flag and are matched
case-insensitively.  `\s`, `\w` and the case fold are ASCII. -/

/-- Case-insensitive prefix test: does `l` start with the (lowercase)
pattern `pat`? -/
def ciStarts : List Char → List Char → Bool
  | [], _ => true
  | _ :: _, [] => false
  | p :: ps, c :: cs => (p = lowerChar c) && ciStarts ps cs

/-- `\s` (ASCII). -/
def isWs (c : Char) : Bool :=
  c = ' ' || c = '\t' || c = '\n' || c = '\r' || c = '\x0b' || c = '\x0c'

/-- `["']`. -/
def isQuote (c : Char) : Bool :=
  c = '"' || c = '\''

/-- `\w` (ASCII). -/
def isWordChar (c : Char) : Bool :=
  c.isAlphanum || c = '_'

/-- `html.indexOf(pat, start)`: the first index `i ≥ start` where `pat`
occurs, if any. -/
def idxOfFrom (hay pat : List Char) (start : Nat) : Option Nat :=
  ((List.range hay.length).filter
    (fun i => decide (start ≤ i) && pat.isPrefixOf (hay.drop i))).head?

/-- Does the (case-insensitive) keyword match at the head of `l`, with a
`\b` word boundary on each side?  `prevNonWord` tells whether the character
before `l` is a non-word character (or the span start, which in `classRe`
is the opening quote). -/
def kwAt (kw : List Char) (prevNonWord : Bool) (l : List Char) : Bool :=
  prevNonWord && ciStarts kw l &&
    (match l.drop kw.length with
     | [] => true
     | c :: _ => !isWordChar c)

/-- Search a span for a word-bounded case-insensitive keyword occurrence. -/
def kwSearch (kw : List Char) (prev : Bool) : List Char → Bool
  | [] => false
  | c :: rest => kwAt kw prev (c :: rest) || kwSearch kw (!isWordChar c) rest

/-- The tail of `classRe` after the opening quote:
`[^"']*\bimage-container\b[^"']*["']` — a closing quote must exist, and the
quote-free span before it must contain a word-bounded `image-container`. -/
def classBodyFrom (l : List Char) : Bool :=
  (match l.dropWhile (fun c => !isQuote c) with
   | [] => false
   | _ :: _ => kwSearch "image-container".data true
       (l.takeWhile (fun c => !isQuote c)))

/-- Does `classRe` (`class\s*=\s*["']…image-container…["']`, `/i`) match at
the head of `l`? -/
def classAt (l : List Char) : Bool :=
  ciStarts "class".data l &&
    (match (l.drop 5).dropWhile isWs with
     | '=' :: l2 =>
       (match l2.dropWhile isWs with
        | q :: l3 => isQuote q && classBodyFrom l3
        | [] => false)
     | _ => false)

/-- `classRe.test(openTag)`: search every position. -/
def hasClassAttr : List Char → Bool
  | [] => false
  | c :: rest => classAt (c :: rest) || hasClassAttr rest

/-- Does `dataIdRe` (`data-id\s*=\s*["']([^"']+)["']`, `/i`) match at the
head of `l`?  Returns the capture. -/
def dataIdAt (l : List Char) : Option (List Char) :=
  if ciStarts "data-id".data l then
    match (l.drop 7).dropWhile isWs with
    | '=' :: l2 =>
      (match l2.dropWhile isWs with
       | q :: l3 =>
         if isQuote q then
           match l3.dropWhile (fun c => !isQuote c) with
           | [] => none
           | _ :: _ =>
             if (l3.takeWhile (fun c => !isQuote c)).isEmpty then none
             else some (l3.takeWhile (fun c => !isQuote c))
         else none
       | [] => none)
    | _ => none
  else none

/-- The first `dataIdRe` match in `l` (leftmost, as `String.match`). -/
def findDataId : List Char → Option (List Char)
  | [] => none
  | c :: rest =>
    match dataIdAt (c :: rest) with
    | some v => some v
    | none => findDataId rest

/-- Does the `<div\b` alternative of the depth-scan regex match here? -/
def divOpenAt (l : List Char) : Bool :=
  ciStarts "<div".data l &&
    (match l.drop 4 with
     | [] => true
     | c :: _ => !isWordChar c)

/-- Does the `<\/div>` alternative match here? -/
def divCloseAt (l : List Char) : Bool :=
  ciStarts "</div>".data l

/-- The balanced-tag walk of `extractImageContainers`: starting at absolute
position `pos` (the character after the opening tag's `>`) with nesting
depth `depth`, advance over `/<div\b|<\/div>/ig` matches until the depth
returns to zero, yielding `re.lastIndex` (the index just after the closing
`</div>`); `none` when the input ends first. -/
def scanBalance : List Char → Nat → Nat → Option Nat
  | [], _, _ => none
  | c :: rest, pos, depth =>
    if divOpenAt (c :: rest) then
      scanBalance ((c :: rest).drop 4) (pos + 4) (depth + 1)
    else if divCloseAt (c :: rest) then
      (if depth = 1 then some (pos + 6)
       else scanBalance ((c :: rest).drop 6) (pos + 6) (depth - 1))
    else scanBalance rest (pos + 1) depth
termination_by l => l.length
decreasing_by
  · simp only [List.length_drop, List.length_cons]
    omega
  · simp only [List.length_drop, List.length_cons]
    omega
  · simp only [List.length_cons]
    omega

theorem idxOfFrom_some {hay pat : List Char} {start i : Nat}
    (h : idxOfFrom hay pat start = some i) : start ≤ i ∧ i < hay.length := by
  unfold idxOfFrom at h
  have hmem : i ∈ (List.range hay.length).filter
      (fun i => decide (start ≤ i) && pat.isPrefixOf (hay.drop i)) :=
    List.mem_of_mem_head? h
  rw [List.mem_filter] at hmem
  refine ⟨?_, List.mem_range.mp hmem.1⟩
  have h2 := hmem.2
  simp only [Bool.and_eq_true, decide_eq_true_eq] at h2
  exact h2.1

theorem ciStarts_le_length :
    ∀ pat l : List Char, ciStarts pat l = true → pat.length ≤ l.length := by
  intro pat
  induction pat with
  | nil =>
    intro l _
    simp
  | cons p ps ih =>
    intro l h
    cases l with
    | nil => cases h
    | cons c cs =>
      simp only [ciStarts, Bool.and_eq_true] at h
      simpa using ih cs h.2

theorem scanBalance_some_bounds :
    ∀ (l : List Char) (pos depth : Nat), ∀ r : Nat,
      scanBalance l pos depth = some r → pos + 6 ≤ r ∧ r ≤ pos + l.length := by
  intro l pos depth
  induction l, pos, depth using scanBalance.induct with
  | case1 x y =>
    intro r h
    rw [scanBalance] at h
    cases h
  | case2 c rest pos depth hopen ih =>
    intro r h
    rw [scanBalance, if_pos hopen] at h
    have hb := ih r h
    have hlen : 4 ≤ (c :: rest).length := by
      unfold divOpenAt at hopen
      exact ciStarts_le_length "<div".data (c :: rest)
        ((Bool.and_eq_true _ _).mp hopen).1
    simp only [List.length_drop] at hb
    omega
  | case3 c rest pos hnopen hclose =>
    intro r h
    rw [scanBalance, if_neg hnopen, if_pos hclose, if_pos rfl] at h
    cases h
    have hlen : 6 ≤ (c :: rest).length := by
      unfold divCloseAt at hclose
      exact ciStarts_le_length "</div>".data (c :: rest) hclose
    omega
  | case4 c rest pos depth hnopen hclose hdep ih =>
    intro r h
    rw [scanBalance, if_neg hnopen, if_pos hclose, if_neg hdep] at h
    have hb := ih r h
    have hlen : 6 ≤ (c :: rest).length := by
      unfold divCloseAt at hclose
      exact ciStarts_le_length "</div>".data (c :: rest) hclose
    simp only [List.length_drop] at hb
    omega
  | case5 c rest pos depth hnopen hclose ih =>
    intro r h
    rw [scanBalance, if_neg hnopen, if_neg hclose] at h
    have hb := ih r h
    simp only [List.length_cons]
    omega

/-- The scanning loop of `extractImageContainers`: from scan position `idx`,
find the next `<div` (exact, case-sensitive), find its tag-closing `>`, and
if the open tag carries both a qualifying `class` and a `data-id`, walk the
balanced-tag scan from after the `>`; a matched block contributes its
`(openIdx, closeIdx)` extent and scanning resumes at `closeIdx`, an
unmatched block ends the loop (partial result discarded), and a
non-qualifying `<div` just moves the scan position past its open tag. -/
def extractLoop (html : List Char) (idx : Nat) : List (Nat × Nat) :=
  match h1 : idxOfFrom html "<div".data idx with
  | none => []
  | some openIdx =>
    match h2 : idxOfFrom html ['>'] openIdx with
    | none => []
    | some tagEnd =>
      if hasClassAttr ((html.drop openIdx).take (tagEnd + 1 - openIdx)) &&
          (findDataId ((html.drop openIdx).take (tagEnd + 1 - openIdx))).isSome
      then
        match h3 : scanBalance (html.drop (tagEnd + 1)) (tagEnd + 1) 1 with
        | some closeIdx => (openIdx, closeIdx) :: extractLoop html closeIdx
        | none => []
      else extractLoop html (tagEnd + 1)
termination_by html.length + 1 - idx
decreasing_by
  · have hb1 := idxOfFrom_some h1
    have hb2 := idxOfFrom_some h2
    have hb3 := scanBalance_some_bounds _ _ _ _ h3
    simp only [List.length_drop] at hb3
    omega
  · have hb1 := idxOfFrom_some h1
    have hb2 := idxOfFrom_some h2
    omega

theorem extractLoop_eq_nil1 {html : List Char} {idx : Nat}
    (h1 : idxOfFrom html "<div".data idx = none) :
    extractLoop html idx = [] := by
  rw [extractLoop]
  split
  · rfl
  · rename_i o heq
    rw [h1] at heq <;> cases heq

theorem extractLoop_eq_nil2 {html : List Char} {idx openIdx : Nat}
    (h1 : idxOfFrom html "<div".data idx = some openIdx)
    (h2 : idxOfFrom html ['>'] openIdx = none) :
    extractLoop html idx = [] := by
  rw [extractLoop]
  split
  · rename_i heq
    rw [h1] at heq <;> cases heq
  · rename_i o heq
    rw [h1] at heq
    cases heq
    split
    · rfl
    · rename_i t heq2
      rw [h2] at heq2 <;> cases heq2

theorem extractLoop_eq_cons {html : List Char} {idx openIdx tagEnd closeIdx : Nat}
    (h1 : idxOfFrom html "<div".data idx = some openIdx)
    (h2 : idxOfFrom html ['>'] openIdx = some tagEnd)
    (hq : (hasClassAttr ((html.drop openIdx).take (tagEnd + 1 - openIdx)) &&
      (findDataId ((html.drop openIdx).take (tagEnd + 1 - openIdx))).isSome) = true)
    (h3 : scanBalance (html.drop (tagEnd + 1)) (tagEnd + 1) 1 = some closeIdx) :
    extractLoop html idx = (openIdx, closeIdx) :: extractLoop html closeIdx := by
  rw [extractLoop]
  split
  · rename_i heq
    rw [h1] at heq <;> cases heq
  · rename_i o heq
    rw [h1] at heq
    cases heq
    split
    · rename_i heq2
      rw [h2] at heq2 <;> cases heq2
    · rename_i t heq2
      rw [h2] at heq2
      cases heq2
      rw [if_pos hq]
      split
      · rename_i c heq3
        rw [h3] at heq3
        cases heq3
        rfl
      · rename_i heq3
        rw [h3] at heq3 <;> cases heq3

theorem extractLoop_eq_nil3 {html : List Char} {idx openIdx tagEnd : Nat}
    (h1 : idxOfFrom html "<div".data idx = some openIdx)
    (h2 : idxOfFrom html ['>'] openIdx = some tagEnd)
    (hq : (hasClassAttr ((html.drop openIdx).take (tagEnd + 1 - openIdx)) &&
      (findDataId ((html.drop openIdx).take (tagEnd + 1 - openIdx))).isSome) = true)
    (h3 : scanBalance (html.drop (tagEnd + 1)) (tagEnd + 1) 1 = none) :
    extractLoop html idx = [] := by
  rw [extractLoop]
  split
  · rename_i heq
    rw [h1] at heq <;> cases heq
  · rename_i o heq
    rw [h1] at heq
    cases heq
    split
    · rename_i heq2
      rw [h2] at heq2 <;> cases heq2
    · rename_i t heq2
      rw [h2] at heq2
      cases heq2
      rw [if_pos hq]
      split
      · rename_i c heq3
        rw [h3] at heq3 <;> cases heq3
      · rfl

theorem extractLoop_eq_skip {html : List Char} {idx openIdx tagEnd : Nat}
    (h1 : idxOfFrom html "<div".data idx = some openIdx)
    (h2 : idxOfFrom html ['>'] openIdx = some tagEnd)
    (hq : ¬ (hasClassAttr ((html.drop openIdx).take (tagEnd + 1 - openIdx)) &&
      (findDataId ((html.drop openIdx).take (tagEnd + 1 - openIdx))).isSome)
        = true) :
    extractLoop html idx = extractLoop html (tagEnd + 1) := by
  rw [extractLoop]
  split
  · rename_i heq
    rw [h1] at heq <;> cases heq
  · rename_i o heq
    rw [h1] at heq
    cases heq
    split
    · rename_i heq2
      rw [h2] at heq2 <;> cases heq2
    · rename_i t heq2
      rw [h2] at heq2
      cases heq2
      rw [if_neg hq]

/-- `extractImageContainers(html)`: the matched blocks, each the slice
`html.slice(openIdx, closeIdx)`, in scan order. -/
def extractImageContainers (html : String) : List String :=
  (extractLoop html.data 0).map
    (fun p => ((html.data.drop p.1).take (p.2 - p.1)).asString)

/-- The literal `class=["']gallery["']` (`/i`) at the head of `l`. -/
def galleryLitAt (l : List Char) : Bool :=
  ciStarts "class=".data l &&
    (match l.drop 6 with
     | q :: l2 =>
       isQuote q && ciStarts "gallery".data l2 &&
         (match l2.drop 7 with
          | q2 :: _ => isQuote q2
          | [] => false)
     | [] => false)

/-- Search a span for the gallery class literal. -/
def hasGalleryLit : List Char → Bool
  | [] => false
  | c :: rest => galleryLitAt (c :: rest) || hasGalleryLit rest

/-- Does the opening-tag part of `galleryRe`
(`<section[^>]*class=["']gallery["'][^>]*>`, `/i`) match at the head of
`l`?  Returns the length of the matched open tag. -/
def galleryOpenAt (l : List Char) : Option Nat :=
  if ciStarts "<section".data l then
    (if hasGalleryLit ((l.drop 8).takeWhile (fun c => c ≠ '>')) then
      (match (l.drop 8).dropWhile (fun c => c ≠ '>') with
       | _ :: _ => some (8 + ((l.drop 8).takeWhile (fun c => c ≠ '>')).length + 1)
       | [] => none)
     else none)
  else none

/-- The leftmost gallery open-tag match: returns the suffix just after the
open tag. -/
def findGalleryOpen : List Char → Option (List Char)
  | [] => none
  | c :: rest =>
    match galleryOpenAt (c :: rest) with
    | some n => some ((c :: rest).drop n)
    | none => findGalleryOpen rest

/-- `([\s\S]*?)(<\/section>)`: the content before the first (leftmost,
non-greedy) `</section>`, if one exists. -/
def takeUntilCloseSection : List Char → Option (List Char)
  | [] => none
  | c :: rest =>
    if ciStarts "</section>".data (c :: rest) then some []
    else
      match takeUntilCloseSection rest with
      | some content => some (c :: content)
      | none => none

/-- `html.match(galleryRe)` reduced to what `main` uses: the gallery
section's inner content (capture group 2), if the section exists. -/
def findGalleryContent (html : String) : Option String :=
  match findGalleryOpen html.data with
  | none => none
  | some afterOpen =>
    match takeUntilCloseSection afterOpen with
    | none => none
    | some content => some content.asString

/-- What `main` does with the catalog markup before de-duplication: a
missing gallery section is a hard error (`console.error` +
`process.exit(1)`); otherwise the blocks extracted from the gallery content
(the empty list — followed by a normal return — when there are none). -/
def runExtraction (html : String) : Except String (List String) :=
  match findGalleryContent html with
  | none => Except.error "Gallery section not found"
  | some content => Except.ok (extractImageContainers content)

deriving instance DecidableEq for Except

/-- C8 counterexample: on markup with no gallery region the tool exits with
an error instead of returning the empty block sequence. -/
theorem extraction_errors_on_missing_gallery :
    runExtraction "<p>x</p>" ≠ Except.ok [] := by
  decide

theorem extractLoop_mem_bounds :
    ∀ (html : List Char) (idx : Nat), ∀ p ∈ extractLoop html idx,
      idx ≤ p.1 ∧ p.1 < p.2 ∧ p.2 ≤ html.length := by
  intro html idx
  induction idx using extractLoop.induct html with
  | case1 idx h1 =>
    intro p hp
    rw [extractLoop_eq_nil1 h1] at hp
    cases hp
  | case2 idx openIdx h1 h2 =>
    intro p hp
    rw [extractLoop_eq_nil2 h1 h2] at hp
    cases hp
  | case3 idx openIdx h1 tagEnd h2 hqual closeIdx h3 ih =>
    intro p hp
    rw [extractLoop_eq_cons h1 h2 hqual h3] at hp
    have hb1 := idxOfFrom_some h1
    have hb2 := idxOfFrom_some h2
    have hb3 := scanBalance_some_bounds _ _ _ _ h3
    simp only [List.length_drop] at hb3
    rcases List.mem_cons.mp hp with rfl | hp'
    · refine ⟨hb1.1, ?_, ?_⟩ <;> omega
    · have := ih p hp'
      refine ⟨?_, this.2.1, this.2.2⟩
      omega
  | case4 idx openIdx h1 tagEnd h2 hqual h3 =>
    intro p hp
    rw [extractLoop_eq_nil3 h1 h2 hqual h3] at hp
    cases hp
  | case5 idx openIdx h1 tagEnd h2 hqual ih =>
    intro p hp
    rw [extractLoop_eq_skip h1 h2 hqual] at hp
    have hb1 := idxOfFrom_some h1
    have hb2 := idxOfFrom_some h2
    have := ih p hp
    refine ⟨?_, this.2.1, this.2.2⟩
    omega

theorem extractLoop_ordered :
    ∀ (html : List Char) (idx : Nat),
      List.Chain' (fun p q : Nat × Nat => p.2 ≤ q.1)
        (extractLoop html idx) := by
  intro html idx
  induction idx using extractLoop.induct html with
  | case1 idx h1 =>
    rw [extractLoop_eq_nil1 h1]
    exact List.chain'_nil
  | case2 idx openIdx h1 h2 =>
    rw [extractLoop_eq_nil2 h1 h2]
    exact List.chain'_nil
  | case3 idx openIdx h1 tagEnd h2 hqual closeIdx h3 ih =>
    rw [extractLoop_eq_cons h1 h2 hqual h3]
    refine List.chain'_cons'.mpr ⟨?_, ih⟩
    intro q hq
    exact (extractLoop_mem_bounds html closeIdx q
      (List.mem_of_mem_head? hq)).1
  | case4 idx openIdx h1 tagEnd h2 hqual h3 =>
    rw [extractLoop_eq_nil3 h1 h2 hqual h3]
    exact List.chain'_nil
  | case5 idx openIdx h1 tagEnd h2 hqual ih =>
    rw [extractLoop_eq_skip h1 h2 hqual]
    exact ih

/-- C8 amended: the blocks are produced in document order — their extents
are pairwise ordered, non-overlapping slices of the input — and when the
gallery region is present but holds no qualifying block the result is the
empty sequence, not an error; a markup whose gallery region is absent,
however, makes the tool fail with an error instead of returning the empty
sequence. -/
theorem extraction_order_and_errors (html content : String) :
    (findGalleryContent html = none →
      runExtraction html = Except.error "Gallery section not found") ∧
    (findGalleryContent html = some content →
      runExtraction html = Except.ok (extractImageContainers content)) ∧
    extractImageContainers content =
      (extractLoop content.data 0).map
        (fun p => ((content.data.drop p.1).take (p.2 - p.1)).asString) ∧
    List.Chain' (fun p q : Nat × Nat => p.2 ≤ q.1)
      (extractLoop content.data 0) ∧
    (∀ p ∈ extractLoop content.data 0,
      p.1 < p.2 ∧ p.2 ≤ content.data.length) := by
  refine ⟨?_, ?_, rfl, extractLoop_ordered content.data 0, ?_⟩
  · intro h
    unfold runExtraction
    rw [h]
  · intro h
    unfold runExtraction
    rw [h]
  · intro p hp
    have := extractLoop_mem_bounds content.data 0 p hp
    exact ⟨this.2.1, this.2.2⟩

/-- Witness for the amended C8 at concrete markups: one without a gallery
section (hard error) and one whose gallery holds a qualifying block
(extraction of that gallery's content). -/
theorem extraction_order_and_errors_witness :
    findGalleryContent "<p>x</p>" = none ∧
    runExtraction "<p>x</p>" = Except.error "Gallery section not found" ∧
    findGalleryContent
      "<section class=\"gallery\"><div class=\"image-container\" data-id=\"a\">x</div></section>"
      = some "<div class=\"image-container\" data-id=\"a\">x</div>" ∧
    runExtraction
      "<section class=\"gallery\"><div class=\"image-container\" data-id=\"a\">x</div></section>"
      = Except.ok (extractImageContainers
          "<div class=\"image-container\" data-id=\"a\">x</div>") :=
  ⟨by decide,
   (extraction_order_and_errors "<p>x</p>" "").1 (by decide),
   by decide,
   (extraction_order_and_errors
     "<section class=\"gallery\"><div class=\"image-container\" data-id=\"a\">x</div></section>"
     "<div class=\"image-container\" data-id=\"a\">x</div>").2.1 (by decide)⟩

end Panda